import Mathlib

/-!
Verification of the uka-rs protocol core (SSTP / SHIORI 3.0).

Shallow embedding conventions:
* a Rust byte (`u8`) is a `Nat` (always < 256 in every reachable value);
* a Rust `&[u8]` / `Vec<u8>` is a `List Nat` of bytes;
* a Rust `String` / `&str` is a `List Nat` of Unicode scalar values
  (`char`s); for pure-ASCII text the two coincide;
* fallible Rust functions return `Except e a`;
* the byte-cursor macros (`read!`, `read_until!`, `lookahead!`, ...) are
  modelled by explicit functions on the remaining input list.
-/

set_option synthInstance.maxSize 4000

deriving instance DecidableEq for Except

/-- Unicode scalar values of a Lean string; for ASCII text this equals its
byte encoding.  Used only to write readable literals for the protocol's
fixed ASCII tokens. -/
def strScalars (s : String) : List Nat :=
  s.data.map Char.toNat

/-- `u8::is_ascii_control`: `0x00..=0x1F` or `0x7F`. -/
def isAsciiControl (c : Nat) : Bool :=
  c < 32 || c == 127

/-- `char::is_ascii_graphic`: `'!'..='~'`, that is `0x21..=0x7E`. -/
def isAsciiGraphic (c : Nat) : Bool :=
  33 ≤ c && c ≤ 126

/-- `char` validity in Rust: a Unicode scalar value, i.e. below 0x110000
and not a UTF-16 surrogate. -/
def isScalarValue (c : Nat) : Bool :=
  c < 1114112 && !(55296 ≤ c && c ≤ 57343)

/-- Errors of `uka_util::encode::Error`. -/
inductive EncodeError
  | asciiEncodeFailure
  | shiftJisEncodeFailure
  | iso2022JpEncodeFailure
  | eucJpEncodeFailure
  deriving DecidableEq, Repr

/-- Errors of the decoder (`decode::Error` in `sstp_protocol`/`uka_util`). -/
inductive DecodeError
  | asciiDecodeFailure
  | shiftJisDecodeFailure
  | iso2022JpDecodeFailure
  | eucJpDecodeFailure
  | utf8DecodeFailure
  deriving DecidableEq, Repr

/-- `Encoder::encode_ascii`: the `ascii` crate accepts exactly the scalar
values below 0x80 and returns them byte for byte. -/
def encodeAscii (s : List Nat) : Except EncodeError (List Nat) :=
  if s.all (fun c => c < 128) then .ok s else .error .asciiEncodeFailure

/-- `Decoder::decode_ascii`: accepts exactly the bytes below 0x80. -/
def decodeAscii (b : List Nat) : Except DecodeError (List Nat) :=
  if b.all (fun c => c < 128) then .ok b else .error .asciiDecodeFailure

/-- UTF-8 encoding of one scalar value (standard 1-to-4 byte form). -/
def utf8EncodeChar (c : Nat) : List Nat :=
  if c < 128 then [c]
  else if c < 2048 then [192 + c / 64, 128 + c % 64]
  else if c < 65536 then [224 + c / 4096, 128 + (c / 64) % 64, 128 + c % 64]
  else [240 + c / 262144, 128 + (c / 4096) % 64, 128 + (c / 64) % 64, 128 + c % 64]

/-- UTF-8 encoding of a string (`Encoder::encode_utf8` is
`String::as_bytes`, infallible on well-formed strings). -/
def utf8Encode (s : List Nat) : List Nat :=
  s.flatMap utf8EncodeChar

/-- Is `b` a UTF-8 continuation byte (`0x80..=0xBF`)? -/
def isContByte (b : Nat) : Bool :=
  128 ≤ b && b ≤ 191

/-- Strict UTF-8 decoding of one scalar value from the front of `l`:
returns the scalar and the remaining bytes, rejecting overlong forms,
surrogates and values above 0x10FFFF exactly as `String::from_utf8`. -/
def utf8DecodeChar (l : List Nat) : Option (Nat × List Nat) :=
  match l with
  | [] => none
  | b0 :: t0 =>
    if b0 < 128 then some (b0, t0)
    else if 194 ≤ b0 && b0 ≤ 223 then
      match t0 with
      | b1 :: t1 => if isContByte b1 then some ((b0 - 192) * 64 + (b1 - 128), t1) else none
      | _ => none
    else if 224 ≤ b0 && b0 ≤ 239 then
      match t0 with
      | b1 :: b2 :: t2 =>
        if isContByte b1 && isContByte b2 then
          let v := (b0 - 224) * 4096 + (b1 - 128) * 64 + (b2 - 128)
          if 2048 ≤ v && isScalarValue v then some (v, t2) else none
        else none
      | _ => none
    else if 240 ≤ b0 && b0 ≤ 244 then
      match t0 with
      | b1 :: b2 :: b3 :: t3 =>
        if isContByte b1 && isContByte b2 && isContByte b3 then
          let v := (b0 - 240) * 262144 + (b1 - 128) * 4096 + (b2 - 128) * 64 + (b3 - 128)
          if 65536 ≤ v && v < 1114112 then some (v, t3) else none
        else none
      | _ => none
    else none

/-- Strict UTF-8 decoding of a whole byte string, with fuel (the fuel is
always sufficient because every step consumes at least one byte). -/
def utf8DecodeAllF : Nat → List Nat → Option (List Nat)
  | _, [] => some []
  | 0, _ :: _ => none
  | fuel + 1, l =>
    match utf8DecodeChar l with
    | some (c, rest) => (utf8DecodeAllF fuel rest).map (fun s => c :: s)
    | none => none

/-- `String::from_utf8` on the byte level. -/
def utf8DecodeAll (b : List Nat) : Option (List Nat) :=
  utf8DecodeAllF b.length b

/-- `Decoder::decode_utf8`. -/
def decodeUtf8 (b : List Nat) : Except DecodeError (List Nat) :=
  match utf8DecodeAll b with
  | some s => .ok s
  | none => .error .utf8DecodeFailure

/-- Modelled from the spec: the three legacy Japanese codecs
(`Shift_JIS`, `ISO-2022-JP`, `EUC-JP`) are implemented by the external
`encoding_rs` crate, whose transcoding tables are not part of this
repository.  §4.2 of the spec describes them as delegating to standard
transcoding tables and failing (never substituting) on anything
unmappable in either direction.  We model such a codec as a finite
table of (scalar value, byte sequence) pairs used strictly in both
directions; the concrete tables below are representative fragments of
the real ones (taken from byte sequences appearing in the repository's
own tests). -/
def tableEncodeChar (t : List (Nat × List Nat)) (c : Nat) : Option (List Nat) :=
  (t.find? (fun e => e.1 == c)).map (fun e => e.2)

/-- Strict table-driven encoding of a whole string: every scalar must be
in the table. -/
def tableEncode (t : List (Nat × List Nat)) : List Nat → Option (List Nat)
  | [] => some []
  | c :: s =>
    match tableEncodeChar t c, tableEncode t s with
    | some b, some bs => some (b ++ bs)
    | _, _ => none

/-- Strict table-driven decoding with fuel: repeatedly take the first
table entry whose (non-empty) byte sequence is a prefix of the input. -/
def tableDecodeF (t : List (Nat × List Nat)) : Nat → List Nat → Option (List Nat)
  | _, [] => some []
  | 0, _ :: _ => none
  | fuel + 1, l =>
    match t.find? (fun e => !e.2.isEmpty && e.2.isPrefixOf l) with
    | some e => (tableDecodeF t fuel (l.drop e.2.length)).map (fun s => e.1 :: s)
    | none => none

/-- Strict table-driven decoding of a whole byte string. -/
def tableDecode (t : List (Nat × List Nat)) (b : List Nat) : Option (List Nat) :=
  tableDecodeF t b.length b

/-- Well-formedness of a codec table: byte sequences are non-empty and
pairwise non-prefixing (which the real transcoding tables satisfy). -/
def TableWf (t : List (Nat × List Nat)) : Prop :=
  (∀ e ∈ t, e.2 ≠ []) ∧
  t.Pairwise (fun a b => ¬ a.2 <+: b.2 ∧ ¬ b.2 <+: a.2)

instance (t : List (Nat × List Nat)) : Decidable (TableWf t) := by
  unfold TableWf
  exact instDecidableAnd

/-- Modelled from the spec: representative fragment of the Shift_JIS
table (hiragana rows used by the repository's tests). -/
def sjisTable : List (Nat × List Nat) :=
  [(0x3042, [130, 160]), (0x3044, [130, 162]), (0x3046, [130, 164]),
   (0x3048, [130, 166]), (0x304A, [130, 168]),
   (0x3055, [130, 179]), (0x304F, [130, 173]), (0x3089, [130, 231])]

/-- Modelled from the spec: representative fragment of the EUC-JP table. -/
def eucJpTable : List (Nat × List Nat) :=
  [(0x3042, [164, 162]), (0x3044, [164, 164]), (0x3046, [164, 166]),
   (0x3048, [164, 168]), (0x304A, [164, 170]),
   (0x3055, [164, 181]), (0x304F, [164, 175]), (0x3089, [164, 233])]

/-- Modelled from the spec: representative fragment of the ISO-2022-JP
table (each sequence carries its own escape-in/escape-out, a
simplification of the stateful escape handling of the real codec). -/
def iso2022JpTable : List (Nat × List Nat) :=
  [(0x3042, [27, 36, 66, 36, 34, 27, 40, 66]),
   (0x3044, [27, 36, 66, 36, 36, 27, 40, 66]),
   (0x3046, [27, 36, 66, 36, 38, 27, 40, 66]),
   (0x3048, [27, 36, 66, 36, 40, 27, 40, 66]),
   (0x304A, [27, 36, 66, 36, 42, 27, 40, 66]),
   (0x3055, [27, 36, 66, 36, 53, 27, 40, 66]),
   (0x304F, [27, 36, 66, 36, 47, 27, 40, 66]),
   (0x3089, [27, 36, 66, 36, 105, 27, 40, 66])]

/-- `Encoder::encode_sjis` (spec-modelled table codec, strict). -/
def encodeSjis (s : List Nat) : Except EncodeError (List Nat) :=
  match tableEncode sjisTable s with
  | some b => .ok b
  | none => .error .shiftJisEncodeFailure

/-- `Encoder::encode_iso_2022_jp` (spec-modelled table codec, strict). -/
def encodeIso2022Jp (s : List Nat) : Except EncodeError (List Nat) :=
  match tableEncode iso2022JpTable s with
  | some b => .ok b
  | none => .error .iso2022JpEncodeFailure

/-- `Encoder::encode_euc_jp` (spec-modelled table codec, strict). -/
def encodeEucJp (s : List Nat) : Except EncodeError (List Nat) :=
  match tableEncode eucJpTable s with
  | some b => .ok b
  | none => .error .eucJpEncodeFailure

/-- `Decoder::decode_sjis` (spec-modelled table codec, strict). -/
def decodeSjis (b : List Nat) : Except DecodeError (List Nat) :=
  match tableDecode sjisTable b with
  | some s => .ok s
  | none => .error .shiftJisDecodeFailure

/-- `Decoder::decode_iso_2022_jp` (spec-modelled table codec, strict). -/
def decodeIso2022Jp (b : List Nat) : Except DecodeError (List Nat) :=
  match tableDecode iso2022JpTable b with
  | some s => .ok s
  | none => .error .iso2022JpDecodeFailure

/-- `Decoder::decode_euc_jp` (spec-modelled table codec, strict). -/
def decodeEucJp (b : List Nat) : Except DecodeError (List Nat) :=
  match tableDecode eucJpTable b with
  | some s => .ok s
  | none => .error .eucJpDecodeFailure

/-- `Encoder::encode_utf8` never fails on a Rust `String`. -/
def encodeUtf8 (s : List Nat) : Except EncodeError (List Nat) :=
  .ok (utf8Encode s)

/-- `Charset` (`sstp_protocol::charset::Inner` / its sibling revisions). -/
inductive Charset
  | ascii
  | shiftJis
  | iso2022Jp
  | eucJp
  | utf8
  deriving DecidableEq, Repr

instance : Fintype Charset :=
  ⟨⟨{.ascii, .shiftJis, .iso2022Jp, .eucJp, .utf8}, by decide⟩, fun c => by cases c <;> decide⟩

/-- `Charset::to_string` / `Display` (canonical charset names). -/
def charsetName : Charset → List Nat
  | .ascii => strScalars "ASCII"
  | .shiftJis => strScalars "Shift_JIS"
  | .iso2022Jp => strScalars "ISO-2022-JP"
  | .eucJp => strScalars "EUC-JP"
  | .utf8 => strScalars "UTF-8"

/-- `Charset::from_static` / `from_string`: exact match of the five
canonical names, anything else is `Error::Invalid(s)`. -/
def charsetFromString (s : List Nat) : Except (List Nat) Charset :=
  if s = strScalars "ASCII" then .ok .ascii
  else if s = strScalars "Shift_JIS" then .ok .shiftJis
  else if s = strScalars "ISO-2022-JP" then .ok .iso2022Jp
  else if s = strScalars "EUC-JP" then .ok .eucJp
  else if s = strScalars "UTF-8" then .ok .utf8
  else .error s

/-- The per-charset encoder dispatch (the `match charset` in
`HeaderValue::from_static_with_charset` and
`AdditionalData::from_static_with_charset`). -/
def encodeWithCharset : Charset → List Nat → Except EncodeError (List Nat)
  | .ascii, s => encodeAscii s
  | .shiftJis, s => encodeSjis s
  | .iso2022Jp, s => encodeIso2022Jp s
  | .eucJp, s => encodeEucJp s
  | .utf8, s => encodeUtf8 s

/-- The per-charset decoder dispatch (the `match charset` in
`HeaderValue::text_with_charset` and `AdditionalData::text_with_charset`). -/
def decodeWithCharset : Charset → List Nat → Except DecodeError (List Nat)
  | .ascii, b => decodeAscii b
  | .shiftJis, b => decodeSjis b
  | .iso2022Jp, b => decodeIso2022Jp b
  | .eucJp, b => decodeEucJp b
  | .utf8, b => decodeUtf8 b

/-- `uka_util::bag::OrderedBag<K, V>`: insertion-ordered entry list plus
an index from key to the positions holding that key (the Rust `HashMap`
is modelled as a total function defaulting to the empty position list). -/
structure OrderedBag (K V : Type) where
  entries : List (K × V)
  idx : K → List Nat

/-- `OrderedBag::new`. -/
def OrderedBag.empty {K V : Type} : OrderedBag K V :=
  ⟨[], fun _ => []⟩

/-- `OrderedBag::insert`: push the entry and record its position under
its key (`self.map.entry(k).or_default().push(pos)`). -/
def OrderedBag.insert {K V : Type} [DecidableEq K] (m : OrderedBag K V) (k : K) (v : V) :
    OrderedBag K V :=
  { entries := m.entries ++ [(k, v)],
    idx := fun q => if q = k then m.idx k ++ [m.entries.length] else m.idx q }

/-- `OrderedBag::get`: the value at the first recorded position. -/
def OrderedBag.get {K V : Type} (m : OrderedBag K V) (k : K) : Option V :=
  (m.idx k).head?.bind fun i => (m.entries[i]?).map Prod.snd

/-- `OrderedBag::get_all`: the values at all recorded positions, in
order. -/
def OrderedBag.get_all {K V : Type} (m : OrderedBag K V) (k : K) : List V :=
  (m.idx k).filterMap fun i => (m.entries[i]?).map Prod.snd

/-- `OrderedBag::len`. -/
def OrderedBag.size {K V : Type} (m : OrderedBag K V) : Nat :=
  m.entries.length

/-- `OrderedBag::is_empty`. -/
def OrderedBag.isEmpty {K V : Type} (m : OrderedBag K V) : Bool :=
  m.entries.isEmpty

/-- `OrderedBag::iter` yields the entry list in insertion order. -/
def OrderedBag.iterEntries {K V : Type} (m : OrderedBag K V) : List (K × V) :=
  m.entries

/-- `From<Vec<(K, V)>> for OrderedBag` / `FromIterator`: fold of inserts
starting from the empty bag. -/
def OrderedBag.ofList {K V : Type} [DecidableEq K] (l : List (K × V)) : OrderedBag K V :=
  l.foldl (fun m e => m.insert e.1 e.2) OrderedBag.empty

/-- RFC 7230 token bytes, exactly the `matches!` pattern of
`Rfc7230String::from_utf8`: `0-9 ! #-' *-+ --. ^-\x60 A-Z a-z | ~`. -/
def isTokenByte (b : Nat) : Bool :=
  (48 ≤ b && b ≤ 57) || b == 33 || (35 ≤ b && b ≤ 39) || (42 ≤ b && b ≤ 43) ||
  (45 ≤ b && b ≤ 46) || (94 ≤ b && b ≤ 96) || (65 ≤ b && b ≤ 90) ||
  (97 ≤ b && b ≤ 122) || b == 124 || b == 126

/-- `Rfc7230String::from_utf8`: search for the first invalid byte; if one
exists fail with `InvalidCharacter(byte)`, else accept the whole string
(the empty string is accepted vacuously). -/
def rfc7230FromUtf8 (bytes : List Nat) : Except Nat (List Nat) :=
  match bytes.find? (fun b => !isTokenByte b) with
  | some c => .error c
  | none => .ok bytes

/-- `String::from_utf8_lossy`, with fuel (each step consumes at least one
byte).  Replacement granularity: we emit one U+FFFD per undecodable
byte, while Rust replaces maximal invalid subparts; both yield non-token
characters, and all uses in this development are on valid UTF-8. -/
def utf8DecodeLossyF : Nat → List Nat → List Nat
  | _, [] => []
  | 0, _ :: _ => []
  | fuel + 1, b :: rest =>
    match utf8DecodeChar (b :: rest) with
    | some (c, r2) => c :: utf8DecodeLossyF fuel r2
    | none => 65533 :: utf8DecodeLossyF fuel rest

/-- `String::from_utf8_lossy`. -/
def utf8DecodeLossy (b : List Nat) : List Nat :=
  utf8DecodeLossyF b.length b

/-- `uka_sstp::header::name::Inner` (the SSTP header-name set). -/
inductive SstpHeaderName
  | charset
  | sender
  | event
  | reference0
  | reference1
  | reference2
  | reference3
  | reference4
  | reference5
  | reference6
  | reference7
  | script
  | option
  | entry
  | hwnd
  | ifGhost
  | command
  | document
  | songname
  | sentence
  | port
  | surface
  | other (s : List Nat)
  deriving DecidableEq, Repr

/-- `HeaderName` `Display` / `to_vec` / `as_bytes`: the spelling of the
name (for `Other`, the UTF-8 bytes of the stored string). -/
def sstpHeaderNameBytes : SstpHeaderName → List Nat
  | .charset => strScalars "Charset"
  | .sender => strScalars "Sender"
  | .event => strScalars "Event"
  | .reference0 => strScalars "Reference0"
  | .reference1 => strScalars "Reference1"
  | .reference2 => strScalars "Reference2"
  | .reference3 => strScalars "Reference3"
  | .reference4 => strScalars "Reference4"
  | .reference5 => strScalars "Reference5"
  | .reference6 => strScalars "Reference6"
  | .reference7 => strScalars "Reference7"
  | .script => strScalars "Script"
  | .option => strScalars "Option"
  | .entry => strScalars "Entry"
  | .hwnd => strScalars "HWnd"
  | .ifGhost => strScalars "IfGhost"
  | .command => strScalars "Command"
  | .document => strScalars "Document"
  | .songname => strScalars "Songname"
  | .sentence => strScalars "Sentence"
  | .port => strScalars "Port"
  | .surface => strScalars "Surface"
  | .other s => utf8Encode s

/-- `uka_sstp::HeaderName::from_static`: well-known spellings map to
their variant; any other string is validated as an RFC 7230 token and
wrapped in `Other`.  The error payload is the offending byte of
`Rfc7230StringConvertError::InvalidCharacter`. -/
def sstpHeaderNameFromStatic (s : List Nat) : Except Nat SstpHeaderName :=
  if s = strScalars "Charset" then .ok .charset
  else if s = strScalars "Sender" then .ok .sender
  else if s = strScalars "Event" then .ok .event
  else if s = strScalars "Reference0" then .ok .reference0
  else if s = strScalars "Reference1" then .ok .reference1
  else if s = strScalars "Reference2" then .ok .reference2
  else if s = strScalars "Reference3" then .ok .reference3
  else if s = strScalars "Reference4" then .ok .reference4
  else if s = strScalars "Reference5" then .ok .reference5
  else if s = strScalars "Reference6" then .ok .reference6
  else if s = strScalars "Reference7" then .ok .reference7
  else if s = strScalars "Script" then .ok .script
  else if s = strScalars "Option" then .ok .option
  else if s = strScalars "Entry" then .ok .entry
  else if s = strScalars "HWnd" then .ok .hwnd
  else if s = strScalars "IfGhost" then .ok .ifGhost
  else if s = strScalars "Command" then .ok .command
  else if s = strScalars "Document" then .ok .document
  else if s = strScalars "Songname" then .ok .songname
  else if s = strScalars "Sentence" then .ok .sentence
  else if s = strScalars "Port" then .ok .port
  else if s = strScalars "Surface" then .ok .surface
  else (rfc7230FromUtf8 (utf8Encode s)).map .other

/-- `uka_sstp::HeaderName::from_bytes`:
`from_static(&String::from_utf8_lossy(bytes))`. -/
def sstpHeaderNameFromBytes (bytes : List Nat) : Except Nat SstpHeaderName :=
  sstpHeaderNameFromStatic (utf8DecodeLossy bytes)

/-- `sstp::header::value::Error`. -/
inductive HeaderValueError
  | unprintableCharacters (s : List Nat)
  | failedEncode (e : EncodeError)
  | failedDecode (e : DecodeError)
  deriving DecidableEq, Repr

/-- `sstp::HeaderValue::text_with_charset`: decode under the charset,
then reject any ASCII control character in the decoded text. -/
def headerValueTextWithCharset (v : List Nat) (cs : Charset) :
    Except HeaderValueError (List Nat) :=
  match decodeWithCharset cs v with
  | .error e => .error (.failedDecode e)
  | .ok text =>
    if text.any (fun c => isAsciiControl c) then .error (.unprintableCharacters text)
    else .ok text

/-- `sstp::HeaderValue::text` decodes under ASCII. -/
def headerValueText (v : List Nat) : Except HeaderValueError (List Nat) :=
  headerValueTextWithCharset v .ascii

/-- `sstp::HeaderValue::from_static_with_charset`: reject any ASCII
control character in the input, then encode under the charset. -/
def headerValueFromStaticWithCharset (s : List Nat) (cs : Charset) :
    Except HeaderValueError (List Nat) :=
  if s.any (fun c => isAsciiControl c) then .error (.unprintableCharacters s)
  else
    match encodeWithCharset cs s with
    | .ok b => .ok b
    | .error e => .error (.failedEncode e)

/-- `sstp::HeaderValue::from_static` encodes under ASCII. -/
def headerValueFromStatic (s : List Nat) : Except HeaderValueError (List Nat) :=
  headerValueFromStaticWithCharset s .ascii

/-- `uka_sstp::HeaderMap` is `OrderedBag<HeaderName, HeaderValue>`; a
header value is its raw byte string. -/
abbrev SstpHeaderMap : Type := OrderedBag SstpHeaderName (List Nat)

/-- `sstp::Method`. -/
inductive SstpMethod
  | notify
  | send
  | execute
  | give
  | communicate
  deriving DecidableEq, Repr

/-- `Method` `Display`. -/
def sstpMethodBytes : SstpMethod → List Nat
  | .notify => strScalars "NOTIFY"
  | .send => strScalars "SEND"
  | .execute => strScalars "EXECUTE"
  | .give => strScalars "GIVE"
  | .communicate => strScalars "COMMUNICATE"

/-- `sstp::Version` (SSTP/1.0 .. SSTP/1.4). -/
inductive SstpVersion
  | sstp10
  | sstp11
  | sstp12
  | sstp13
  | sstp14
  deriving DecidableEq, Repr

/-- `Version` `Display`. -/
def sstpVersionBytes : SstpVersion → List Nat
  | .sstp10 => strScalars "SSTP/1.0"
  | .sstp11 => strScalars "SSTP/1.1"
  | .sstp12 => strScalars "SSTP/1.2"
  | .sstp13 => strScalars "SSTP/1.3"
  | .sstp14 => strScalars "SSTP/1.4"

/-- `sstp::StatusCode` (the closed constant set). -/
inductive SstpStatusCode
  | ok
  | noContent
  | breakCode
  | badRequest
  | requestTimeout
  | conflict
  | refuse
  | notImplemented
  | serviceUnavailable
  | notLocalIp
  | inBlackList
  | invisible
  deriving DecidableEq, Repr

/-- `StatusCode` `Display`: code and reason phrase. -/
def sstpStatusBytes : SstpStatusCode → List Nat
  | .ok => strScalars "200 OK"
  | .noContent => strScalars "204 No Content"
  | .breakCode => strScalars "210 Break"
  | .badRequest => strScalars "400 Bad Request"
  | .requestTimeout => strScalars "408 Request Timeout"
  | .conflict => strScalars "409 Conflict"
  | .refuse => strScalars "420 Refuse"
  | .notImplemented => strScalars "501 Not Implemented"
  | .serviceUnavailable => strScalars "503 Service Unavailable"
  | .notLocalIp => strScalars "510 Not Local IP"
  | .inBlackList => strScalars "511 In Black List"
  | .invisible => strScalars "512 Invisible"

/-- `sstp::parse::Error` (payloads reduced to what distinguishes the
variants; all `io::Error` payloads collapse to `ioErr`). -/
inductive SstpError
  | ioErr
  | invalidHeaderName (b : Nat)
  | missingHeader (n : SstpHeaderName)
  | failedDecode (n : SstpHeaderName) (e : HeaderValueError)
  | unsupportedCharset (s : List Nat)
  | unexpectedEof
  deriving DecidableEq, Repr

/-- `read!(cursor, n)`: take exactly `n` bytes or fail. -/
def readN (n : Nat) (l : List Nat) : Option (List Nat × List Nat) :=
  if n ≤ l.length then some (l.take n, l.drop n) else none

/-- `read_expect!(cursor, pat)`: read `pat.len()` bytes and require them
to equal `pat`; returns the remaining input. -/
def readExpect (pat : List Nat) (l : List Nat) : Option (List Nat) :=
  match readN pat.length l with
  | some (t, rest) => if t = pat then some rest else none
  | none => none

/-- `lookahead!(cursor, 2)`: the next two bytes, not consumed. -/
def lookahead2 (l : List Nat) : Option (Nat × Nat) :=
  match l with
  | a :: b :: _ => some (a, b)
  | _ => none

/-- `read_repeat!(cursor, b" ")`, i.e. `skip_spaces`: consume a run of
spaces; never fails (end of input just stops the run). -/
def skipSpaces (l : List Nat) : List Nat :=
  l.dropWhile (fun b => b == 32)

/-- `read_until!(cursor, b":")` (single-byte terminator): bytes before
the first occurrence, which is consumed; EOF before it is an error. -/
def readUntil1 (b : Nat) : List Nat → Option (List Nat × List Nat)
  | [] => none
  | x :: xs =>
    if x = b then some ([], xs)
    else (readUntil1 b xs).map (fun p => (x :: p.1, p.2))

/-- `read_until!(cursor, b"\r\n")`: bytes before the first adjacent
CR LF pair, which is consumed; EOF before it is an error. -/
def readUntilCRLF : List Nat → Option (List Nat × List Nat)
  | [] => none
  | [_] => none
  | a :: b :: t =>
    if a == 13 && b == 10 then some ([], t)
    else (readUntilCRLF (b :: t)).map (fun p => (a :: p.1, p.2))

/-- `skip_newline`: expect CR LF. -/
def skipNewline (l : List Nat) : Option (List Nat) :=
  readExpect [13, 10] l

/-- `parse_method` (SSTP): `read_match!` reads one byte, dispatches on
it against the first bytes of the method keywords (all distinct), then
expects the keyword's remainder. -/
def sstpParseMethod (l : List Nat) : Except SstpError (SstpMethod × List Nat) :=
  match l with
  | [] => .error .ioErr
  | b :: rest =>
    if b = 78 then
      match readExpect (strScalars "OTIFY") rest with
      | some r => .ok (.notify, r)
      | none => .error .ioErr
    else if b = 83 then
      match readExpect (strScalars "END") rest with
      | some r => .ok (.send, r)
      | none => .error .ioErr
    else if b = 69 then
      match readExpect (strScalars "XECUTE") rest with
      | some r => .ok (.execute, r)
      | none => .error .ioErr
    else if b = 71 then
      match readExpect (strScalars "IVE") rest with
      | some r => .ok (.give, r)
      | none => .error .ioErr
    else if b = 67 then
      match readExpect (strScalars "OMMUNICATE") rest with
      | some r => .ok (.communicate, r)
      | none => .error .ioErr
    else .error .ioErr

/-- `parse_version` (SSTP): `read_match!` with an 8-byte prefix; every
version literal is exactly 8 bytes. -/
def sstpParseVersion (l : List Nat) : Except SstpError (SstpVersion × List Nat) :=
  match readN 8 l with
  | none => .error .ioErr
  | some (t, rest) =>
    if t = strScalars "SSTP/1.0" then .ok (.sstp10, rest)
    else if t = strScalars "SSTP/1.1" then .ok (.sstp11, rest)
    else if t = strScalars "SSTP/1.2" then .ok (.sstp12, rest)
    else if t = strScalars "SSTP/1.3" then .ok (.sstp13, rest)
    else if t = strScalars "SSTP/1.4" then .ok (.sstp14, rest)
    else .error .ioErr

/-- `parse_status_code` (SSTP): `read_match!` with a 3-byte prefix (the
numeric code), then the expected remainder of the status line literal. -/
def sstpParseStatusCode (l : List Nat) : Except SstpError (SstpStatusCode × List Nat) :=
  match readN 3 l with
  | none => .error .ioErr
  | some (t, rest) =>
    if t = strScalars "200" then
      match readExpect (strScalars " OK") rest with
      | some r => .ok (.ok, r)
      | none => .error .ioErr
    else if t = strScalars "204" then
      match readExpect (strScalars " No Content") rest with
      | some r => .ok (.noContent, r)
      | none => .error .ioErr
    else if t = strScalars "210" then
      match readExpect (strScalars " Break") rest with
      | some r => .ok (.breakCode, r)
      | none => .error .ioErr
    else if t = strScalars "400" then
      match readExpect (strScalars " Bad Request") rest with
      | some r => .ok (.badRequest, r)
      | none => .error .ioErr
    else if t = strScalars "408" then
      match readExpect (strScalars " Request Timeout") rest with
      | some r => .ok (.requestTimeout, r)
      | none => .error .ioErr
    else if t = strScalars "409" then
      match readExpect (strScalars " Conflict") rest with
      | some r => .ok (.conflict, r)
      | none => .error .ioErr
    else if t = strScalars "420" then
      match readExpect (strScalars " Refuse") rest with
      | some r => .ok (.refuse, r)
      | none => .error .ioErr
    else if t = strScalars "501" then
      match readExpect (strScalars " Not Implemented") rest with
      | some r => .ok (.notImplemented, r)
      | none => .error .ioErr
    else if t = strScalars "503" then
      match readExpect (strScalars " Service Unavailable") rest with
      | some r => .ok (.serviceUnavailable, r)
      | none => .error .ioErr
    else if t = strScalars "510" then
      match readExpect (strScalars " Not Local IP") rest with
      | some r => .ok (.notLocalIp, r)
      | none => .error .ioErr
    else if t = strScalars "511" then
      match readExpect (strScalars " In Black List") rest with
      | some r => .ok (.inBlackList, r)
      | none => .error .ioErr
    else if t = strScalars "512" then
      match readExpect (strScalars " Invisible") rest with
      | some r => .ok (.invisible, r)
      | none => .error .ioErr
    else .error .ioErr

/-- `parse_headers` loop body with fuel (each iteration consumes at
least the `:` byte, so `input.length + 1` fuel always suffices). -/
def sstpParseHeadersF : Nat → SstpHeaderMap → List Nat → Except SstpError (SstpHeaderMap × List Nat)
  | 0, _, _ => .error .ioErr
  | fuel + 1, acc, l =>
    match lookahead2 l with
    | none => .error .ioErr
    | some (a, b) =>
      if a == 13 && b == 10 then .ok (acc, l)
      else
        match readUntil1 58 l with
        | none => .error .ioErr
        | some (name, r1) =>
          match readUntilCRLF (skipSpaces r1) with
          | none => .error .ioErr
          | some (value, r3) =>
            match sstpHeaderNameFromBytes name with
            | .error c => .error (.invalidHeaderName c)
            | .ok hn => sstpParseHeadersF fuel (acc.insert hn value) r3

/-- `parse_headers` (SSTP). -/
def sstpParseHeaders (l : List Nat) : Except SstpError (SstpHeaderMap × List Nat) :=
  sstpParseHeadersF (l.length + 1) OrderedBag.empty l

/-- `AdditionalData` (SSTP response trailer). -/
inductive AdditionalData
  | empty
  | text (b : List Nat)
  deriving DecidableEq, Repr

/-- `parse_additional_data` loop with fuel: collect lines, re-appending
CR LF after each, until a blank line is seen (not consumed). -/
def sstpParseAdditionalF : Nat → List Nat → List Nat → Except SstpError (List Nat × List Nat)
  | 0, _, _ => .error .ioErr
  | fuel + 1, acc, l =>
    match lookahead2 l with
    | none => .error .ioErr
    | some (a, b) =>
      if a == 13 && b == 10 then .ok (acc, l)
      else
        match readUntilCRLF l with
        | none => .error .ioErr
        | some (line, r1) => sstpParseAdditionalF fuel (acc ++ line ++ [13, 10]) r1

/-- `parse_additional_data`: at end of input the trailer is `Empty`,
otherwise the line loop runs and yields `Text`. -/
def sstpParseAdditional (l : List Nat) : Except SstpError (AdditionalData × List Nat) :=
  if l = [] then .ok (.empty, l)
  else (sstpParseAdditionalF (l.length + 1) [] l).map (fun p => (.text p.1, p.2))

/-- The charset-resolution step shared by `parse_request` and
`parse_response` (SSTP): the `Charset` header is mandatory, its value is
decoded as ASCII text and must name a supported charset. -/
def sstpResolveCharset (headers : SstpHeaderMap) : Except SstpError Charset :=
  match headers.get .charset with
  | none => .error (.missingHeader .charset)
  | some v =>
    match headerValueText v with
    | .error e => .error (.failedDecode .charset e)
    | .ok s =>
      match charsetFromString s with
      | .ok cs => .ok cs
      | .error msg => .error (.unsupportedCharset msg)

/-- `sstp::Request` (method, version, headers, charset). -/
structure SstpRequest where
  method : SstpMethod
  version : SstpVersion
  headers : SstpHeaderMap
  charset : Charset

/-- `sstp::Response`. -/
structure SstpResponse where
  version : SstpVersion
  status_code : SstpStatusCode
  headers : SstpHeaderMap
  charset : Charset
  additional : AdditionalData

/-- `parse_request` (SSTP, `sstp/src/parse.rs`). -/
def sstpParseRequest (input : List Nat) : Except SstpError SstpRequest :=
  match sstpParseMethod input with
  | .error e => .error e
  | .ok (m, r1) =>
    match sstpParseVersion (skipSpaces r1) with
    | .error e => .error e
    | .ok (v, r3) =>
      match skipNewline r3 with
      | none => .error .ioErr
      | some r4 =>
        match sstpParseHeaders r4 with
        | .error e => .error e
        | .ok (hm, r5) =>
          match sstpResolveCharset hm with
          | .error e => .error e
          | .ok cs =>
            match skipNewline r5 with
            | none => .error .ioErr
            | some r6 =>
              if r6 = [] then .ok ⟨m, v, hm, cs⟩ else .error .unexpectedEof

/-- `parse_response` (SSTP, `sstp/src/parse.rs`). -/
def sstpParseResponse (input : List Nat) : Except SstpError SstpResponse :=
  match sstpParseVersion input with
  | .error e => .error e
  | .ok (v, r1) =>
    match sstpParseStatusCode (skipSpaces r1) with
    | .error e => .error e
    | .ok (st, r3) =>
      match skipNewline r3 with
      | none => .error .ioErr
      | some r4 =>
        match sstpParseHeaders r4 with
        | .error e => .error e
        | .ok (hm, r5) =>
          match sstpResolveCharset hm with
          | .error e => .error e
          | .ok cs =>
            match skipNewline r5 with
            | none => .error .ioErr
            | some r6 =>
              match sstpParseAdditional r6 with
              | .error e => .error e
              | .ok (ad, r7) =>
                match ad with
                | .text _ =>
                  match skipNewline r7 with
                  | none => .error .ioErr
                  | some r8 =>
                    if r8 = [] then .ok ⟨v, st, hm, cs, ad⟩ else .error .unexpectedEof
                | .empty =>
                  if r7 = [] then .ok ⟨v, st, hm, cs, ad⟩ else .error .unexpectedEof

/-- One serialized header line: `Name: Value\r\n` (`as_bytes` writes the
name, a colon and one space, the raw value bytes, then CR LF). -/
def sstpHeaderLineBytes (e : SstpHeaderName × List Nat) : List Nat :=
  sstpHeaderNameBytes e.1 ++ [58, 32] ++ e.2 ++ [13, 10]

/-- `Request::as_bytes` (uka_sstp): `METHOD SP VERSION CRLF`, each header
line in map iteration order, then a blank CRLF. -/
def sstpRequestAsBytes (r : SstpRequest) : List Nat :=
  sstpMethodBytes r.method ++ [32] ++ sstpVersionBytes r.version ++ [13, 10] ++
    r.headers.iterEntries.flatMap sstpHeaderLineBytes ++ [13, 10]

/-- `Response::as_bytes` (sstp): `VERSION SP STATUS CRLF`, header lines,
a blank CRLF, then for `Text` additional data its bytes and a final CRLF. -/
def sstpResponseAsBytes (r : SstpResponse) : List Nat :=
  sstpVersionBytes r.version ++ [32] ++ sstpStatusBytes r.status_code ++ [13, 10] ++
    r.headers.iterEntries.flatMap sstpHeaderLineBytes ++ [13, 10] ++
    (match r.additional with
     | .text b => b ++ [13, 10]
     | .empty => [])

/-- `str::replace('\n', "\r\n")` on scalar values. -/
def replaceLfCrLf (s : List Nat) : List Nat :=
  s.flatMap (fun c => if c = 10 then [13, 10] else [c])

/-- `AdditionalData::from_static_with_charset`: empty input is `Empty`;
otherwise `\n` is replaced by `\r\n`, the result encoded under the
charset, and a terminating CRLF appended unless the last ONE byte of
the encoding equals the two-byte `b"\r\n"` (which is impossible, so the
append always happens - mirrored literally from the source). -/
def additionalFromStaticWithCharset (s : List Nat) (cs : Charset) :
    Except EncodeError AdditionalData :=
  if s = [] then .ok .empty
  else
    match encodeWithCharset cs (replaceLfCrLf s) with
    | .error e => .error e
    | .ok bytes =>
      if bytes.drop (bytes.length - 1) = [13, 10] then .ok (.text bytes)
      else .ok (.text (bytes ++ [13, 10]))

/-- The model of `HashMap<String, Vec<String>>` used by the builders:
an association list from key to the ordered list of pushed values.
`entry(k).or_default().push(v)` appends to the key's list, creating it
if absent.  Iteration order of the Rust `HashMap` is unspecified; the
model iterates keys in first-insertion order. -/
def hashMapPush (m : List (List Nat × List (List Nat))) (k : List Nat) (v : List Nat) :
    List (List Nat × List (List Nat)) :=
  match m with
  | [] => [(k, [v])]
  | (k', vs) :: rest =>
    if k' = k then (k', vs ++ [v]) :: rest else (k', vs) :: hashMapPush rest k v

/-- Lookup in the builder header map (`HashMap::get`). -/
def hashMapGet (m : List (List Nat × List (List Nat))) (k : List Nat) :
    Option (List (List Nat)) :=
  (m.find? (fun e => e.1 = k)).map (fun e => e.2)

/-- `uka_sstp::request::Parts` (the builder's accumulated state). -/
structure SstpRequestParts where
  method : Option SstpMethod
  version : Option SstpVersion
  headers : List (List Nat × List (List Nat))
  charset : Option Charset

/-- `Parts::default()`. -/
def sstpRequestPartsDefault : SstpRequestParts :=
  ⟨none, none, [], none⟩

/-- `Builder::method` (the builder's closures never fail, so builder
state is modelled as `Parts` directly; all errors arise in `build`). -/
def sstpBuilderMethod (m : SstpMethod) (p : SstpRequestParts) : SstpRequestParts :=
  { p with method := some m }

/-- `Builder::version`. -/
def sstpBuilderVersion (v : SstpVersion) (p : SstpRequestParts) : SstpRequestParts :=
  { p with version := some v }

/-- `Builder::header`: push the value string under the name string. -/
def sstpBuilderHeader (k v : List Nat) (p : SstpRequestParts) : SstpRequestParts :=
  { p with headers := hashMapPush p.headers k v }

/-- `Builder::charset` (uka_sstp request / sstp response builders): push
a `Charset: <name>` header entry unconditionally; record the charset as
"the" charset only if none was recorded before. -/
def sstpBuilderCharset (cs : Charset) (p : SstpRequestParts) : SstpRequestParts :=
  let h2 := hashMapPush p.headers (strScalars "Charset") (charsetName cs)
  if p.charset.isSome then { p with headers := h2 }
  else { p with headers := h2, charset := some cs }

/-- `uka_sstp::request::Error` (builder errors). -/
inductive SstpBuildError
  | missingMethod
  | missingVersion
  | missingStatusCode
  | missingCharset
  | invalidHeaderName (b : Nat)
  | failedEncodeHeaderValue (e : HeaderValueError)
  | failedEncodeAdditionalData (e : EncodeError)
  deriving DecidableEq, Repr

/-- The header-encoding fold of `Builder::build`: for every accumulated
(name, value-string) pair, convert the name through
`HeaderName::from_static` and the value through `HeaderValue::from_static`
when it is pure ASCII-graphic, else through `from_static_with_charset`
under the resolved charset; insert into the `HeaderMap` in order. -/
def sstpBuildHeaders (cs : Charset) (hs : List (List Nat × List (List Nat))) :
    Except SstpBuildError SstpHeaderMap :=
  hs.foldl
    (fun acc kv =>
      kv.2.foldl
        (fun acc v =>
          match acc with
          | .error e => .error e
          | .ok m =>
            match sstpHeaderNameFromStatic kv.1 with
            | .error b => .error (.invalidHeaderName b)
            | .ok hn =>
              match
                (if v.all isAsciiGraphic then headerValueFromStatic v
                 else headerValueFromStaticWithCharset v cs) with
              | .error e => .error (.failedEncodeHeaderValue e)
              | .ok hv => .ok (m.insert hn hv))
        acc)
    (.ok OrderedBag.empty)

/-- `uka_sstp::request::Builder::build`. -/
def sstpBuild (p : SstpRequestParts) : Except SstpBuildError SstpRequest :=
  match p.charset with
  | none => .error .missingCharset
  | some cs =>
    match p.method with
    | none => .error .missingMethod
    | some m =>
      match p.version with
      | none => .error .missingVersion
      | some v =>
        match sstpBuildHeaders cs p.headers with
        | .error e => .error e
        | .ok hm => .ok ⟨m, v, hm, cs⟩

/-- `sstp::response::Parts`. -/
structure SstpResponseParts where
  version : Option SstpVersion
  status_code : Option SstpStatusCode
  headers : List (List Nat × List (List Nat))
  charset : Option Charset
  additional : Option (List Nat)

/-- `Parts::default()` for the response builder. -/
def sstpResponsePartsDefault : SstpResponseParts :=
  ⟨none, none, [], none, none⟩

/-- `response::Builder::version`. -/
def sstpRespBuilderVersion (v : SstpVersion) (p : SstpResponseParts) : SstpResponseParts :=
  { p with version := some v }

/-- `response::Builder::status_code`. -/
def sstpRespBuilderStatusCode (st : SstpStatusCode) (p : SstpResponseParts) : SstpResponseParts :=
  { p with status_code := some st }

/-- `response::Builder::header`. -/
def sstpRespBuilderHeader (k v : List Nat) (p : SstpResponseParts) : SstpResponseParts :=
  { p with headers := hashMapPush p.headers k v }

/-- `response::Builder::charset` (same first-call-wins logic as the
request builder). -/
def sstpRespBuilderCharset (cs : Charset) (p : SstpResponseParts) : SstpResponseParts :=
  let h2 := hashMapPush p.headers (strScalars "Charset") (charsetName cs)
  if p.charset.isSome then { p with headers := h2 }
  else { p with headers := h2, charset := some cs }

/-- `response::Builder::additional`. -/
def sstpRespBuilderAdditional (s : List Nat) (p : SstpResponseParts) : SstpResponseParts :=
  { p with additional := some s }

/-- `sstp::response::Builder::build`. -/
def sstpRespBuild (p : SstpResponseParts) : Except SstpBuildError SstpResponse :=
  match p.charset with
  | none => .error .missingCharset
  | some cs =>
    match p.version with
    | none => .error .missingVersion
    | some v =>
      match p.status_code with
      | none => .error .missingStatusCode
      | some st =>
        match sstpBuildHeaders cs p.headers with
        | .error e => .error e
        | .ok hm =>
          match additionalFromStaticWithCharset (p.additional.getD []) cs with
          | .error e => .error (.failedEncodeAdditionalData e)
          | .ok ad => .ok ⟨v, st, hm, cs, ad⟩

/-- `uka_shiori::types::v3::header::name::Inner` (SHIORI header names). -/
inductive ShioriHeaderName
  | charset
  | sender
  | id
  | reference0
  | reference1
  | reference2
  | reference3
  | reference4
  | reference5
  | reference6
  | reference7
  | securityLevel
  | value
  | other (s : List Nat)
  deriving DecidableEq, Repr

/-- SHIORI `HeaderName` `Display` / `as_bytes`. -/
def shioriHeaderNameBytes : ShioriHeaderName → List Nat
  | .charset => strScalars "Charset"
  | .sender => strScalars "Sender"
  | .id => strScalars "ID"
  | .reference0 => strScalars "Reference0"
  | .reference1 => strScalars "Reference1"
  | .reference2 => strScalars "Reference2"
  | .reference3 => strScalars "Reference3"
  | .reference4 => strScalars "Reference4"
  | .reference5 => strScalars "Reference5"
  | .reference6 => strScalars "Reference6"
  | .reference7 => strScalars "Reference7"
  | .securityLevel => strScalars "SecurityLevel"
  | .value => strScalars "Value"
  | .other s => utf8Encode s

/-- `uka_shiori::types::v3::HeaderName::from_static`: well-known
spellings to their variant; otherwise all bytes must be RFC 7230 token
bytes, failing with `InvalidHeaderName(s)` (the error carries the whole
offending string). -/
def shioriHeaderNameFromStatic (s : List Nat) : Except (List Nat) ShioriHeaderName :=
  if s = strScalars "Charset" then .ok .charset
  else if s = strScalars "Sender" then .ok .sender
  else if s = strScalars "ID" then .ok .id
  else if s = strScalars "Reference0" then .ok .reference0
  else if s = strScalars "Reference1" then .ok .reference1
  else if s = strScalars "Reference2" then .ok .reference2
  else if s = strScalars "Reference3" then .ok .reference3
  else if s = strScalars "Reference4" then .ok .reference4
  else if s = strScalars "Reference5" then .ok .reference5
  else if s = strScalars "Reference6" then .ok .reference6
  else if s = strScalars "Reference7" then .ok .reference7
  else if s = strScalars "SecurityLevel" then .ok .securityLevel
  else if s = strScalars "Value" then .ok .value
  else if (utf8Encode s).all isTokenByte then .ok (.other s)
  else .error s

/-- `uka_shiori::types::v3::HeaderName::from_bytes`:
`from_static(&String::from_utf8_lossy(bytes))`. -/
def shioriHeaderNameFromBytes (bytes : List Nat) : Except (List Nat) ShioriHeaderName :=
  shioriHeaderNameFromStatic (utf8DecodeLossy bytes)

/-- The SHIORI `HeaderMap`: the same `OrderedBag` container keyed by the
SHIORI header names. -/
abbrev ShioriHeaderMap : Type := OrderedBag ShioriHeaderName (List Nat)

/-- `uka_shiori::types::v3::Method`. -/
inductive ShioriMethod
  | get
  | notify
  deriving DecidableEq, Repr

/-- SHIORI `Method` `Display`. -/
def shioriMethodBytes : ShioriMethod → List Nat
  | .get => strScalars "GET"
  | .notify => strScalars "NOTIFY"

/-- `uka_shiori::types::v3::Version` (only SHIORI/3.0). -/
inductive ShioriVersion
  | shiori30
  deriving DecidableEq, Repr

/-- `uka_shiori::types::v3::StatusCode`. -/
inductive ShioriStatusCode
  | ok
  | noContent
  | communicate
  | notEnough
  | advice
  | badRequest
  | internalServerError
  deriving DecidableEq, Repr

/-- `uka_shiori::types::v3::parse::Error` (payloads as for SSTP). -/
inductive ShioriError
  | ioErr
  | invalidHeaderName (s : List Nat)
  | missingHeader (n : ShioriHeaderName)
  | failedDecode (n : ShioriHeaderName) (e : HeaderValueError)
  | unsupportedCharset (s : List Nat)
  | unexpectedEof
  deriving DecidableEq, Repr

/-- `uka_shiori::types::v3::Request`. -/
structure ShioriRequest where
  method : ShioriMethod
  version : ShioriVersion
  headers : ShioriHeaderMap
  charset : Charset

/-- `uka_shiori::types::v3::Response`. -/
structure ShioriResponse where
  version : ShioriVersion
  status_code : ShioriStatusCode
  headers : ShioriHeaderMap
  charset : Charset

/-- SHIORI `parse_method`: `read_match!` on the first byte (`G`/`N`),
then the keyword remainder. -/
def shioriParseMethod (l : List Nat) : Except ShioriError (ShioriMethod × List Nat) :=
  match l with
  | [] => .error .ioErr
  | b :: rest =>
    if b = 71 then
      match readExpect (strScalars "ET") rest with
      | some r => .ok (.get, r)
      | none => .error .ioErr
    else if b = 78 then
      match readExpect (strScalars "OTIFY") rest with
      | some r => .ok (.notify, r)
      | none => .error .ioErr
    else .error .ioErr

/-- SHIORI `parse_version`: the single literal `SHIORI/3.0`. -/
def shioriParseVersion (l : List Nat) : Except ShioriError (ShioriVersion × List Nat) :=
  match l with
  | [] => .error .ioErr
  | b :: rest =>
    if b = 83 then
      match readExpect (strScalars "HIORI/3.0") rest with
      | some r => .ok (.shiori30, r)
      | none => .error .ioErr
    else .error .ioErr

/-- SHIORI `parse_status_code`: 3-byte numeric prefix, then the status
line remainder. -/
def shioriParseStatusCode (l : List Nat) : Except ShioriError (ShioriStatusCode × List Nat) :=
  match readN 3 l with
  | none => .error .ioErr
  | some (t, rest) =>
    if t = strScalars "200" then
      match readExpect (strScalars " OK") rest with
      | some r => .ok (.ok, r)
      | none => .error .ioErr
    else if t = strScalars "204" then
      match readExpect (strScalars " No Content") rest with
      | some r => .ok (.noContent, r)
      | none => .error .ioErr
    else if t = strScalars "310" then
      match readExpect (strScalars " Communicate") rest with
      | some r => .ok (.communicate, r)
      | none => .error .ioErr
    else if t = strScalars "311" then
      match readExpect (strScalars " Not Enough") rest with
      | some r => .ok (.notEnough, r)
      | none => .error .ioErr
    else if t = strScalars "312" then
      match readExpect (strScalars " Advice") rest with
      | some r => .ok (.advice, r)
      | none => .error .ioErr
    else if t = strScalars "400" then
      match readExpect (strScalars " Bad Request") rest with
      | some r => .ok (.badRequest, r)
      | none => .error .ioErr
    else if t = strScalars "500" then
      match readExpect (strScalars " Internal Server Error") rest with
      | some r => .ok (.internalServerError, r)
      | none => .error .ioErr
    else .error .ioErr

/-- SHIORI `parse_headers` loop with fuel (same structure as SSTP). -/
def shioriParseHeadersF : Nat → ShioriHeaderMap → List Nat →
    Except ShioriError (ShioriHeaderMap × List Nat)
  | 0, _, _ => .error .ioErr
  | fuel + 1, acc, l =>
    match lookahead2 l with
    | none => .error .ioErr
    | some (a, b) =>
      if a == 13 && b == 10 then .ok (acc, l)
      else
        match readUntil1 58 l with
        | none => .error .ioErr
        | some (name, r1) =>
          match readUntilCRLF (skipSpaces r1) with
          | none => .error .ioErr
          | some (value, r3) =>
            match shioriHeaderNameFromBytes name with
            | .error s => .error (.invalidHeaderName s)
            | .ok hn => shioriParseHeadersF fuel (acc.insert hn value) r3

/-- SHIORI `parse_headers`. -/
def shioriParseHeaders (l : List Nat) : Except ShioriError (ShioriHeaderMap × List Nat) :=
  shioriParseHeadersF (l.length + 1) OrderedBag.empty l

/-- The SHIORI charset-resolution chain, mirrored from the source:
`get(CHARSET).ok_or(MissingHeader).and_then(text).and_then(from_string)
.or(Ok(Charset::ASCII))` - the final `.or` replaces EVERY error of the
chain (missing header, undecodable value, unsupported name) by a
successful ASCII default.

The SHIORI `HeaderValue` revision is not under `src/`; its `text()` is
modelled from the spec (§4.4) as ASCII decoding plus the uniform
control-character rejection, i.e. the same `headerValueText` as SSTP. -/
def shioriResolveCharset (headers : ShioriHeaderMap) : Except ShioriError Charset :=
  let chain : Except ShioriError Charset :=
    match headers.get .charset with
    | none => .error (.missingHeader .charset)
    | some v =>
      match headerValueText v with
      | .error e => .error (.failedDecode .charset e)
      | .ok s =>
        match charsetFromString s with
        | .ok cs => .ok cs
        | .error msg => .error (.unsupportedCharset msg)
  match chain with
  | .ok cs => .ok cs
  | .error _ => .ok .ascii

/-- `parse_request` (SHIORI/3.0, `uka_shiori/src/types/v3/parse.rs`). -/
def shioriParseRequest (input : List Nat) : Except ShioriError ShioriRequest :=
  match shioriParseMethod input with
  | .error e => .error e
  | .ok (m, r1) =>
    match shioriParseVersion (skipSpaces r1) with
    | .error e => .error e
    | .ok (v, r3) =>
      match skipNewline r3 with
      | none => .error .ioErr
      | some r4 =>
        match shioriParseHeaders r4 with
        | .error e => .error e
        | .ok (hm, r5) =>
          match shioriResolveCharset hm with
          | .error e => .error e
          | .ok cs =>
            match skipNewline r5 with
            | none => .error .ioErr
            | some r6 =>
              if r6 = [] then .ok ⟨m, v, hm, cs⟩ else .error .unexpectedEof

/-- `parse_response` (SHIORI/3.0). -/
def shioriParseResponse (input : List Nat) : Except ShioriError ShioriResponse :=
  match shioriParseVersion input with
  | .error e => .error e
  | .ok (v, r1) =>
    match shioriParseStatusCode (skipSpaces r1) with
    | .error e => .error e
    | .ok (st, r3) =>
      match skipNewline r3 with
      | none => .error .ioErr
      | some r4 =>
        match shioriParseHeaders r4 with
        | .error e => .error e
        | .ok (hm, r5) =>
          match shioriResolveCharset hm with
          | .error e => .error e
          | .ok cs =>
            match skipNewline r5 with
            | none => .error .ioErr
            | some r6 =>
              if r6 = [] then .ok ⟨v, st, hm, cs⟩ else .error .unexpectedEof

/-- C10: for every non-empty string `s` and charset `cs` under which the
newline-normalized `s` encodes successfully,
`AdditionalData::from_static_with_charset(s, cs)` yields `Text` of the
encoding of `s` (with `\n` replaced by `\r\n`) followed by one
unconditionally appended `\r\n`: the end guard compares a one-byte slice
with the two-byte terminator and can never hold, so the terminator is
always appended (a string already ending in a newline therefore ends in
`\r\n\r\n`). -/
theorem c10_additional_always_appends_crlf (s : List Nat) (cs : Charset) (bs : List Nat)
    (hne : s ≠ []) (henc : encodeWithCharset cs (replaceLfCrLf s) = .ok bs) :
    additionalFromStaticWithCharset s cs = .ok (.text (bs ++ [13, 10])) := by
  have h1 : bs.drop (bs.length - 1) ≠ [13, 10] := by
    intro hcontra
    have h2 := congrArg List.length hcontra
    simp [List.length_drop] at h2
    omega
  simp only [additionalFromStaticWithCharset, if_neg hne, henc]
  rw [if_neg h1]

/-- Witness for C10: `"a\n"` under ASCII encodes to `a \r \n` and the
trailer bytes end in `\r\n\r\n`. -/
theorem c10_witness :
    additionalFromStaticWithCharset [97, 10] .ascii = .ok (.text [97, 13, 10, 13, 10]) :=
  c10_additional_always_appends_crlf [97, 10] .ascii [97, 13, 10] (by decide) (by decide)

/-- C9: `HeaderName::from_static("")` and `from_bytes(b"")` succeed with
`Other` of the empty token (the RFC 7230 validator only searches for an
invalid byte and accepts the empty string vacuously), and the SSTP
parser accepts a header line starting with `:` (empty name part),
yielding an `Other("")` header entry. -/
theorem c9_empty_header_name_accepted :
    sstpHeaderNameFromStatic [] = .ok (.other []) ∧
    sstpHeaderNameFromBytes [] = .ok (.other []) ∧
    (sstpParseRequest (strScalars "NOTIFY SSTP/1.0\r\n: foo\r\nCharset: ASCII\r\n\r\n")).map
      (fun r => (r.method, r.version, r.charset, r.headers.iterEntries)) =
      .ok (.notify, .sstp10, .ascii,
        [(.other [], strScalars "foo"), (.charset, strScalars "ASCII")]) :=
  ⟨by decide, by decide, by decide⟩

/-- The corrected reading of the SHIORI charset extension: the fallback
to ASCII applies to EVERY failure of the charset-resolution chain, also
when the `Charset` header is present but undecodable or unsupported. -/
def shioriCharsetFallback (headers : ShioriHeaderMap) : Charset :=
  match headers.get .charset with
  | none => .ascii
  | some v =>
    match headerValueText v with
    | .error _ => .ascii
    | .ok s =>
      match charsetFromString s with
      | .ok cs => cs
      | .error _ => .ascii

/-- C2 counterexample: a SHIORI/3.0 request and a response each carrying
`Charset: ISO-8859-16` (an unsupported charset name) parse successfully
with charset ASCII, instead of failing with `UnsupportedCharset` as the
claim states. -/
theorem c2_counterexample_invalid_charset_parses :
    (shioriParseRequest (strScalars "GET SHIORI/3.0\r\nCharset: ISO-8859-16\r\n\r\n")).map
      (fun r => r.charset) = .ok .ascii ∧
    (shioriParseResponse (strScalars "SHIORI/3.0 200 OK\r\nCharset: ISO-8859-16\r\n\r\n")).map
      (fun r => r.charset) = .ok .ascii :=
  ⟨by decide, by decide⟩

/-- C2 amended: in SHIORI/3.0 parsing the charset resolution never
fails; a `Charset` header that is absent, undecodable, or naming an
unsupported charset all alike fall back silently to ASCII (the
`.or(Ok(Charset::ASCII))` swallows every error of the chain). -/
theorem c2_amended_shiori_charset_falls_back_to_ascii :
    (∀ hm : ShioriHeaderMap, shioriResolveCharset hm = .ok (shioriCharsetFallback hm)) ∧
    (shioriParseRequest (strScalars "GET SHIORI/3.0\r\nCharset: ISO-8859-16\r\n\r\n")).map
      (fun r => r.charset) = .ok .ascii ∧
    (shioriParseResponse (strScalars "SHIORI/3.0 200 OK\r\nCharset: ISO-8859-16\r\n\r\n")).map
      (fun r => r.charset) = .ok .ascii := by
  refine ⟨fun hm => ?_, by decide, by decide⟩
  rcases hget : hm.get ShioriHeaderName.charset with _ | v
  · simp [shioriResolveCharset, shioriCharsetFallback, hget]
  · rcases htext : headerValueText v with e | s
    · simp [shioriResolveCharset, shioriCharsetFallback, hget, htext]
    · rcases hcs : charsetFromString s with m | cs <;>
        simp [shioriResolveCharset, shioriCharsetFallback, hget, htext, hcs]

/-- C6: `HeaderValue::from_static`/`from_static_with_charset` fail with
`UnprintableCharacters` on any input containing an ASCII control
character (0x00-0x1F, 0x7F), and `text`/`text_with_charset` fail the
same way whenever the decoded text contains such a character. -/
theorem c6_control_characters_rejected :
    (∀ (s : List Nat) (cs : Charset), (∃ c ∈ s, isAsciiControl c = true) →
        headerValueFromStaticWithCharset s cs = .error (.unprintableCharacters s)) ∧
    (∀ s : List Nat, (∃ c ∈ s, isAsciiControl c = true) →
        headerValueFromStatic s = .error (.unprintableCharacters s)) ∧
    (∀ (v : List Nat) (cs : Charset) (u : List Nat),
        decodeWithCharset cs v = .ok u → (∃ c ∈ u, isAsciiControl c = true) →
        headerValueTextWithCharset v cs = .error (.unprintableCharacters u)) ∧
    (∀ (v u : List Nat), decodeWithCharset .ascii v = .ok u →
        (∃ c ∈ u, isAsciiControl c = true) →
        headerValueText v = .error (.unprintableCharacters u)) := by
  have hfrom : ∀ (s : List Nat) (cs : Charset), (∃ c ∈ s, isAsciiControl c = true) →
      headerValueFromStaticWithCharset s cs = .error (.unprintableCharacters s) := by
    intro s cs hex
    have : s.any (fun c => isAsciiControl c) = true := List.any_eq_true.mpr hex
    simp only [headerValueFromStaticWithCharset, if_pos this]
  have htext : ∀ (v : List Nat) (cs : Charset) (u : List Nat),
      decodeWithCharset cs v = .ok u → (∃ c ∈ u, isAsciiControl c = true) →
      headerValueTextWithCharset v cs = .error (.unprintableCharacters u) := by
    intro v cs u hdec hex
    have : u.any (fun c => isAsciiControl c) = true := List.any_eq_true.mpr hex
    simp only [headerValueTextWithCharset, hdec, if_pos this]
  exact ⟨hfrom, fun s => hfrom s .ascii, htext, fun v u => htext v .ascii u⟩

/-- Witness for C6: the NUL byte/character is rejected in both
directions under ASCII. -/
theorem c6_witness :
    headerValueFromStaticWithCharset [0] .ascii = .error (.unprintableCharacters [0]) ∧
    headerValueText [0] = .error (.unprintableCharacters [0]) :=
  ⟨c6_control_characters_rejected.1 [0] .ascii ⟨0, by decide, by decide⟩,
   c6_control_characters_rejected.2.2.2 [0] [0] (by decide) ⟨0, by decide, by decide⟩⟩

/-- Token bytes are ASCII. -/
theorem isTokenByte_lt128 {b : Nat} (h : isTokenByte b = true) : b < 128 := by
  simp [isTokenByte] at h
  omega

/-- UTF-8 encoding is the identity on ASCII-only strings. -/
theorem utf8Encode_of_lt128 (s : List Nat) (h : ∀ b ∈ s, b < 128) : utf8Encode s = s := by
  induction s with
  | nil => rfl
  | cons c t ih =>
    have hc : c < 128 := h c (by simp)
    have ht : ∀ b ∈ t, b < 128 := fun b hb => h b (by simp [hb])
    simp only [utf8Encode, List.flatMap_cons] at *
    rw [ih ht]
    simp [utf8EncodeChar, if_pos hc]

/-- The spec-side description of `HeaderName::from_static` on token
strings: well-known spellings map to their variant, everything else to
`Other` (no validation, which is what C7 asserts succeeds). -/
def sstpWellKnownOrOther (s : List Nat) : SstpHeaderName :=
  if s = strScalars "Charset" then .charset
  else if s = strScalars "Sender" then .sender
  else if s = strScalars "Event" then .event
  else if s = strScalars "Reference0" then .reference0
  else if s = strScalars "Reference1" then .reference1
  else if s = strScalars "Reference2" then .reference2
  else if s = strScalars "Reference3" then .reference3
  else if s = strScalars "Reference4" then .reference4
  else if s = strScalars "Reference5" then .reference5
  else if s = strScalars "Reference6" then .reference6
  else if s = strScalars "Reference7" then .reference7
  else if s = strScalars "Script" then .script
  else if s = strScalars "Option" then .option
  else if s = strScalars "Entry" then .entry
  else if s = strScalars "HWnd" then .hwnd
  else if s = strScalars "IfGhost" then .ifGhost
  else if s = strScalars "Command" then .command
  else if s = strScalars "Document" then .document
  else if s = strScalars "Songname" then .songname
  else if s = strScalars "Sentence" then .sentence
  else if s = strScalars "Port" then .port
  else if s = strScalars "Surface" then .surface
  else .other s

/-- The delimiter / space / control bytes named by C7:
`( ) < > @ , ; : \ " / [ ] ? = | 0x7b 0x7d`, the space, and the ASCII
control characters. -/
def sstpDelimByte (b : Nat) : Bool :=
  b == 40 || b == 41 || b == 60 || b == 62 || b == 64 || b == 44 || b == 59 ||
  b == 58 || b == 92 || b == 34 || b == 47 || b == 91 || b == 93 || b == 63 ||
  b == 61 || b == 123 || b == 125 || b == 32 || isAsciiControl b

/-- A delimiter, space or control byte is never a token byte. -/
theorem sstpDelimByte_not_token {b : Nat} (h : sstpDelimByte b = true) :
    isTokenByte b = false := by
  simp [sstpDelimByte, isAsciiControl] at h
  simp [isTokenByte]
  omega

/-- Delimiter bytes are ASCII. -/
theorem sstpDelimByte_lt128 {b : Nat} (h : sstpDelimByte b = true) : b < 128 := by
  simp [sstpDelimByte, isAsciiControl] at h
  omega

/-- The 22 well-known SSTP header-name spellings. -/
def sstpSpellings : List (List Nat) :=
  [strScalars "Charset", strScalars "Sender", strScalars "Event",
   strScalars "Reference0", strScalars "Reference1", strScalars "Reference2",
   strScalars "Reference3", strScalars "Reference4", strScalars "Reference5",
   strScalars "Reference6", strScalars "Reference7", strScalars "Script",
   strScalars "Option", strScalars "Entry", strScalars "HWnd",
   strScalars "IfGhost", strScalars "Command", strScalars "Document",
   strScalars "Songname", strScalars "Sentence", strScalars "Port",
   strScalars "Surface"]

/-- Off the well-known spellings, `from_static` and the spec-side
`sstpWellKnownOrOther` both reach their final branch. -/
theorem sstpFromStatic_not_spelling (s : List Nat) (hsp : s ∉ sstpSpellings) :
    sstpHeaderNameFromStatic s = (rfc7230FromUtf8 (utf8Encode s)).map .other ∧
    sstpWellKnownOrOther s = .other s := by
  simp only [sstpSpellings, List.mem_cons, List.not_mem_nil, or_false, not_or] at hsp
  obtain ⟨e1, e2, e3, e4, e5, e6, e7, e8, e9, e10, e11, e12, e13, e14, e15, e16,
    e17, e18, e19, e20, e21, e22⟩ := hsp
  constructor
  · simp only [sstpHeaderNameFromStatic, if_neg e1, if_neg e2, if_neg e3, if_neg e4,
      if_neg e5, if_neg e6, if_neg e7, if_neg e8, if_neg e9, if_neg e10, if_neg e11,
      if_neg e12, if_neg e13, if_neg e14, if_neg e15, if_neg e16, if_neg e17,
      if_neg e18, if_neg e19, if_neg e20, if_neg e21, if_neg e22]
  · simp only [sstpWellKnownOrOther, if_neg e1, if_neg e2, if_neg e3, if_neg e4,
      if_neg e5, if_neg e6, if_neg e7, if_neg e8, if_neg e9, if_neg e10, if_neg e11,
      if_neg e12, if_neg e13, if_neg e14, if_neg e15, if_neg e16, if_neg e17,
      if_neg e18, if_neg e19, if_neg e20, if_neg e21, if_neg e22]

/-- C7: `HeaderName::from_static` succeeds on every string made of
RFC 7230 token characters (well-known spellings to their variant, all
other token strings to `Other`), and fails with `InvalidHeaderName`
(carrying an offending byte) on any string containing one of the
delimiters, a space, or a control character. -/
theorem c7_header_name_token_grammar :
    (∀ s : List Nat, s.all isTokenByte = true →
        sstpHeaderNameFromStatic s = .ok (sstpWellKnownOrOther s)) ∧
    (∀ (s : List Nat) (b : Nat), b ∈ s → sstpDelimByte b = true →
        ∃ c, sstpHeaderNameFromStatic s = .error c) := by
  constructor
  · intro s hall
    by_cases hsp : s ∈ sstpSpellings
    · simp only [sstpSpellings, List.mem_cons, List.not_mem_nil, or_false] at hsp
      rcases hsp with h | h | h | h | h | h | h | h | h | h | h |
        h | h | h | h | h | h | h | h | h | h | h <;> subst h <;> decide
    · obtain ⟨hfs, hwk⟩ := sstpFromStatic_not_spelling s hsp
      have hlt : ∀ b ∈ s, b < 128 := fun b hb =>
        isTokenByte_lt128 (List.all_eq_true.mp hall b hb)
      rw [hfs, hwk, utf8Encode_of_lt128 s hlt]
      unfold rfc7230FromUtf8
      rw [List.find?_eq_none.mpr (fun x hx => by
        simp [List.all_eq_true.mp hall x hx])]
      rfl
  · intro s b hmem hdelim
    have hnt : isTokenByte b = false := sstpDelimByte_not_token hdelim
    have hlt : b < 128 := sstpDelimByte_lt128 hdelim
    have hsall : s.all isTokenByte = false :=
      List.all_eq_false.mpr (by exact ⟨b, hmem, by simp [hnt]⟩)
    have hsp : s ∉ sstpSpellings := fun hin => by
      have : s.all isTokenByte = true := by
        simp only [sstpSpellings, List.mem_cons, List.not_mem_nil, or_false] at hin
        rcases hin with h | h | h | h | h | h | h | h | h | h | h |
          h | h | h | h | h | h | h | h | h | h | h <;> subst h <;> decide
      rw [this] at hsall
      exact Bool.noConfusion hsall
    rw [(sstpFromStatic_not_spelling s hsp).1]
    have hbmem : b ∈ utf8Encode s :=
      List.mem_flatMap.mpr ⟨b, hmem, by simp [utf8EncodeChar, if_pos hlt]⟩
    have hfind : ((utf8Encode s).find? (fun x => !isTokenByte x)).isSome = true :=
      List.find?_isSome.mpr ⟨b, hbmem, by simp [hnt]⟩
    obtain ⟨c, hc⟩ := Option.isSome_iff_exists.mp hfind
    refine ⟨c, ?_⟩
    unfold rfc7230FromUtf8
    rw [hc]
    rfl

/-- Witness for C7: a custom token name is accepted as `Other`, a
well-known spelling maps to its variant, and a name containing a space
is rejected. -/
theorem c7_witness :
    sstpHeaderNameFromStatic (strScalars "X-Extend-Header") =
      .ok (sstpWellKnownOrOther (strScalars "X-Extend-Header")) ∧
    sstpHeaderNameFromStatic (strScalars "Sender") =
      .ok (sstpWellKnownOrOther (strScalars "Sender")) ∧
    ∃ c, sstpHeaderNameFromStatic (strScalars "Foo Bar") = .error c :=
  ⟨c7_header_name_token_grammar.1 _ (by decide),
   c7_header_name_token_grammar.1 _ (by decide),
   c7_header_name_token_grammar.2 _ 32 (by decide) (by decide)⟩

/-- Pushing a value under a key makes `get` of that key return the old
list (empty when absent) with the value appended. -/
theorem hashMapGet_push_same (m : List (List Nat × List (List Nat))) (k v : List Nat) :
    hashMapGet (hashMapPush m k v) k = some ((hashMapGet m k).getD [] ++ [v]) := by
  induction m with
  | nil => simp [hashMapPush, hashMapGet]
  | cons e t ih =>
    obtain ⟨k', vs⟩ := e
    by_cases h : k' = k
    · subst h
      simp [hashMapPush, hashMapGet]
    · have hpush : hashMapPush ((k', vs) :: t) k v = (k', vs) :: hashMapPush t k v := by
        simp [hashMapPush, h]
      rw [hpush]
      simp only [hashMapGet] at ih ⊢
      rw [List.find?_cons_of_neg _ (by simp [h]), List.find?_cons_of_neg _ (by simp [h])]
      exact ih

/-- C8: every `charset(cs)` call appends one more `Charset` header entry
to the accumulated header list, while the recorded charset keeps its
first value; building after two `charset` calls yields a request whose
resolved charset is the first call's and whose header map carries both
`Charset` lines in call order. -/
theorem c8_builder_charset_first_wins :
    (∀ (p : SstpRequestParts) (cs : Charset),
        hashMapGet (sstpBuilderCharset cs p).headers (strScalars "Charset") =
          some ((hashMapGet p.headers (strScalars "Charset")).getD [] ++ [charsetName cs]) ∧
        (sstpBuilderCharset cs p).charset = some (p.charset.getD cs)) ∧
    (∀ cs1 cs2 : Charset,
        (sstpBuild (sstpBuilderCharset cs2 (sstpBuilderCharset cs1
            (sstpBuilderVersion .sstp11 (sstpBuilderMethod .notify sstpRequestPartsDefault))))).map
          (fun r => (r.charset, r.headers.get_all .charset)) =
        .ok (cs1, [charsetName cs1, charsetName cs2])) := by
  constructor
  · intro p cs
    cases hc : p.charset <;>
      simp [sstpBuilderCharset, hc, hashMapGet_push_same]
  · decide

/-- Positions (0-based) at which a key occurs in an entry list, starting
from index `i`; this is what the `OrderedBag` position index holds. -/
def keyPositionsAux {K V : Type} [DecidableEq K] (k : K) : List (K × V) → Nat → List Nat
  | [], _ => []
  | e :: t, i => if e.1 = k then i :: keyPositionsAux k t (i + 1) else keyPositionsAux k t (i + 1)

/-- Unfolding lemma for `keyPositionsAux` on a cons cell. -/
theorem keyPositionsAux_cons {K V : Type} [DecidableEq K] (k : K) (e : K × V)
    (l : List (K × V)) (i : Nat) :
    keyPositionsAux k (e :: l) i =
      if e.1 = k then i :: keyPositionsAux k l (i + 1) else keyPositionsAux k l (i + 1) :=
  rfl

/-- Folding inserts appends the inserted entries. -/
theorem obEntries_foldl {K V : Type} [DecidableEq K] (L : List (K × V)) :
    ∀ m : OrderedBag K V,
      (L.foldl (fun m e => m.insert e.1 e.2) m).entries = m.entries ++ L := by
  induction L with
  | nil => intro m; simp
  | cons e t ih =>
    intro m
    rw [List.foldl_cons, ih]
    simp [OrderedBag.insert]

/-- Folding inserts extends the position index by the key's positions
among the new entries. -/
theorem obIdx_foldl {K V : Type} [DecidableEq K] (L : List (K × V)) :
    ∀ (m : OrderedBag K V) (q : K),
      (L.foldl (fun m e => m.insert e.1 e.2) m).idx q =
        m.idx q ++ keyPositionsAux q L m.entries.length := by
  induction L with
  | nil => intro m q; simp [keyPositionsAux]
  | cons e t ih =>
    intro m q
    rw [List.foldl_cons, ih, keyPositionsAux_cons]
    by_cases h : q = e.1
    · subst h
      rw [if_pos rfl]
      simp [OrderedBag.insert, Nat.add_comm]
    · have h' : ¬ e.1 = q := fun hh => h hh.symm
      rw [if_neg h']
      simp [OrderedBag.insert, if_neg h, Nat.add_comm]

/-- Skipping a prefix without the key shifts the position scan. -/
theorem keyPositionsAux_no_key {K V : Type} [DecidableEq K] {k : K}
    (l : List (K × V)) (h : ∀ e ∈ l, e.1 ≠ k) :
    ∀ (rest : List (K × V)) (i : Nat),
      keyPositionsAux k (l ++ rest) i = keyPositionsAux k rest (i + l.length) := by
  induction l with
  | nil => intro rest i; simp
  | cons e t ih =>
    intro rest i
    have he : e.1 ≠ k := h e (by simp)
    have ht : ∀ x ∈ t, x.1 ≠ k := fun x hx => h x (by simp [hx])
    rw [List.cons_append, keyPositionsAux_cons, if_neg he, ih ht rest (i + 1)]
    have hn : i + 1 + t.length = i + (t.length + 1) := by omega
    rw [hn]
    simp

/-- C4: in an `OrderedBag` built by inserting `(k, a)` then `(k, b)`
with arbitrary other-key insertions interleaved, `get k` is the first
value `a`, `get_all k` is `[a, b]` in insertion order, and iteration
yields all entries in overall insertion order. -/
theorem c4_ordered_bag_first_wins_and_order {K V : Type} [DecidableEq K]
    (l1 l2 l3 : List (K × V)) (k : K) (a b : V)
    (h1 : ∀ e ∈ l1, e.1 ≠ k) (h2 : ∀ e ∈ l2, e.1 ≠ k) (h3 : ∀ e ∈ l3, e.1 ≠ k) :
    (OrderedBag.ofList (l1 ++ ((k, a) :: (l2 ++ ((k, b) :: l3))))).get k = some a ∧
    (OrderedBag.ofList (l1 ++ ((k, a) :: (l2 ++ ((k, b) :: l3))))).get_all k = [a, b] ∧
    (OrderedBag.ofList (l1 ++ ((k, a) :: (l2 ++ ((k, b) :: l3))))).iterEntries =
      l1 ++ ((k, a) :: (l2 ++ ((k, b) :: l3))) := by
  have hent : (OrderedBag.ofList (l1 ++ ((k, a) :: (l2 ++ ((k, b) :: l3))))).entries =
      l1 ++ ((k, a) :: (l2 ++ ((k, b) :: l3))) := by
    rw [OrderedBag.ofList, obEntries_foldl]
    rfl
  have hl3 : keyPositionsAux (V := V) k l3 (l1.length + 1 + l2.length + 1) = [] := by
    have hx := keyPositionsAux_no_key l3 h3 [] (l1.length + 1 + l2.length + 1)
    rw [List.append_nil] at hx
    rw [hx]
    rfl
  have hidx : (OrderedBag.ofList (l1 ++ ((k, a) :: (l2 ++ ((k, b) :: l3))))).idx k =
      [l1.length, l1.length + 1 + l2.length] := by
    rw [OrderedBag.ofList, obIdx_foldl]
    show [] ++ keyPositionsAux k (l1 ++ ((k, a) :: (l2 ++ ((k, b) :: l3)))) 0 = _
    rw [List.nil_append, keyPositionsAux_no_key l1 h1, keyPositionsAux_cons,
      if_pos rfl, keyPositionsAux_no_key l2 h2, keyPositionsAux_cons, if_pos rfl]
    rw [Nat.zero_add]
    rw [hl3]
  have hp1 : (l1 ++ ((k, a) :: (l2 ++ ((k, b) :: l3))))[l1.length]? = some (k, a) := by
    rw [List.getElem?_append_right (Nat.le_refl _)]
    simp
  have hp2 : (l1 ++ ((k, a) :: (l2 ++ ((k, b) :: l3))))[l1.length + 1 + l2.length]? =
      some (k, b) := by
    rw [List.getElem?_append_right (by omega)]
    have hn : l1.length + 1 + l2.length - l1.length = l2.length + 1 := by omega
    rw [hn]
    simp only [List.getElem?_cons_succ]
    rw [List.getElem?_append_right (Nat.le_refl _)]
    simp
  refine ⟨?_, ?_, ?_⟩
  · rw [OrderedBag.get, hidx, hent]
    simp [hp1]
  · rw [OrderedBag.get_all, hidx, hent]
    simp [List.filterMap, hp1, hp2]
  · rw [OrderedBag.iterEntries, hent]

/-- Witness for C4: concrete SSTP header insertions with interleaved
distinct names. -/
theorem c4_witness :
    (OrderedBag.ofList ([((.sender : SstpHeaderName), strScalars "foo")] ++
        (((.script : SstpHeaderName), strScalars "s1") ::
          ([((.charset : SstpHeaderName), strScalars "ASCII")] ++
            (((.script : SstpHeaderName), strScalars "s2") :: []))))).get .script =
      some (strScalars "s1") ∧
    (OrderedBag.ofList ([((.sender : SstpHeaderName), strScalars "foo")] ++
        (((.script : SstpHeaderName), strScalars "s1") ::
          ([((.charset : SstpHeaderName), strScalars "ASCII")] ++
            (((.script : SstpHeaderName), strScalars "s2") :: []))))).get_all .script =
      [strScalars "s1", strScalars "s2"] ∧
    (OrderedBag.ofList ([((.sender : SstpHeaderName), strScalars "foo")] ++
        (((.script : SstpHeaderName), strScalars "s1") ::
          ([((.charset : SstpHeaderName), strScalars "ASCII")] ++
            (((.script : SstpHeaderName), strScalars "s2") :: []))))).iterEntries =
      [((.sender : SstpHeaderName), strScalars "foo")] ++
        (((.script : SstpHeaderName), strScalars "s1") ::
          ([((.charset : SstpHeaderName), strScalars "ASCII")] ++
            (((.script : SstpHeaderName), strScalars "s2") :: []))) :=
  c4_ordered_bag_first_wins_and_order
    [((.sender : SstpHeaderName), strScalars "foo")]
    [((.charset : SstpHeaderName), strScalars "ASCII")] []
    .script (strScalars "s1") (strScalars "s2")
    (by decide) (by decide) (by decide)

/-- C3: an SSTP request whose successfully parsed header block contains
no `Charset` header fails with `MissingHeader(Charset)`, while a
SHIORI/3.0 request in the same situation parses successfully and its
charset defaults to ASCII. -/
theorem c3_charset_mandatory_sstp_optional_shiori :
    (∀ (input : List Nat) (m : SstpMethod) (r1 : List Nat) (v : SstpVersion)
        (r3 r4 : List Nat) (hm : SstpHeaderMap) (r5 : List Nat),
        sstpParseMethod input = .ok (m, r1) →
        sstpParseVersion (skipSpaces r1) = .ok (v, r3) →
        skipNewline r3 = some r4 →
        sstpParseHeaders r4 = .ok (hm, r5) →
        hm.get .charset = none →
        sstpParseRequest input = .error (.missingHeader .charset)) ∧
    (∀ (input : List Nat) (m : ShioriMethod) (r1 : List Nat) (v : ShioriVersion)
        (r3 r4 : List Nat) (hm : ShioriHeaderMap) (r5 r6 : List Nat),
        shioriParseMethod input = .ok (m, r1) →
        shioriParseVersion (skipSpaces r1) = .ok (v, r3) →
        skipNewline r3 = some r4 →
        shioriParseHeaders r4 = .ok (hm, r5) →
        hm.get .charset = none →
        skipNewline r5 = some r6 →
        r6 = [] →
        shioriParseRequest input = .ok ⟨m, v, hm, .ascii⟩) := by
  constructor
  · intro input m r1 v r3 r4 hm r5 hmeth hver hnl hhdr hnone
    have hres : sstpResolveCharset hm = .error (.missingHeader .charset) := by
      simp [sstpResolveCharset, hnone]
    simp only [sstpParseRequest, hmeth, hver, hnl, hhdr, hres]
  · intro input m r1 v r3 r4 hm r5 r6 hmeth hver hnl hhdr hnone hnl2 hr6
    subst hr6
    have hres : shioriResolveCharset hm = .ok .ascii := by
      simp [shioriResolveCharset, hnone]
    simp only [shioriParseRequest, hmeth, hver, hnl, hhdr, hres, hnl2, if_pos rfl]
    simp

/-- Witness for C3: spec §8 scenarios 3 and 5 - the concrete SSTP
request without `Charset` fails with `MissingHeader(Charset)`, the
concrete SHIORI/3.0 request without `Charset` parses with charset
ASCII. -/
theorem c3_witness :
    sstpParseRequest (strScalars "NOTIFY SSTP/1.1\r\nSender: foo\r\n\r\n") =
      .error (.missingHeader .charset) ∧
    shioriParseRequest (strScalars "GET SHIORI/3.0\r\nSender: foo\r\n\r\n") =
      .ok ⟨.get, .shiori30,
        OrderedBag.insert OrderedBag.empty .sender (strScalars "foo"), .ascii⟩ := by
  constructor
  · exact c3_charset_mandatory_sstp_optional_shiori.1
      (strScalars "NOTIFY SSTP/1.1\r\nSender: foo\r\n\r\n")
      .notify (strScalars " SSTP/1.1\r\nSender: foo\r\n\r\n")
      .sstp11 (strScalars "\r\nSender: foo\r\n\r\n")
      (strScalars "Sender: foo\r\n\r\n")
      (OrderedBag.insert OrderedBag.empty .sender (strScalars "foo"))
      (strScalars "\r\n")
      (by decide) (by decide) (by decide) (by rfl) (by rfl)
  · exact c3_charset_mandatory_sstp_optional_shiori.2
      (strScalars "GET SHIORI/3.0\r\nSender: foo\r\n\r\n")
      .get (strScalars " SHIORI/3.0\r\nSender: foo\r\n\r\n")
      .shiori30 (strScalars "\r\nSender: foo\r\n\r\n")
      (strScalars "Sender: foo\r\n\r\n")
      (OrderedBag.insert OrderedBag.empty .sender (strScalars "foo"))
      (strScalars "\r\n") []
      (by decide) (by decide) (by decide) (by rfl) (by rfl) (by decide) (by decide)

/-- Decoding the UTF-8 encoding of one scalar value from the front of a
byte stream recovers the scalar and the remaining bytes. -/
theorem utf8DecodeChar_encodeChar (c : Nat) (rest : List Nat) (h : isScalarValue c = true) :
    utf8DecodeChar (utf8EncodeChar c ++ rest) = some (c, rest) := by
  simp only [isScalarValue, Bool.and_eq_true, Bool.not_eq_true', decide_eq_true_eq,
    Bool.and_eq_false_iff, decide_eq_false_iff_not, not_le] at h
  by_cases h1 : c < 128
  · simp [utf8EncodeChar, if_pos h1, utf8DecodeChar, h1]
  · by_cases h2 : c < 2048
    · have e1 : utf8EncodeChar c = [192 + c / 64, 128 + c % 64] := by
        simp [utf8EncodeChar, if_neg h1, if_pos h2]
      rw [e1]
      show utf8DecodeChar ((192 + c / 64) :: (128 + c % 64) :: rest) = _
      simp only [utf8DecodeChar]
      rw [if_neg (by omega), if_pos (by
        simp only [Bool.and_eq_true, decide_eq_true_eq]
        omega)]
      rw [if_pos (by simp only [isContByte, Bool.and_eq_true, decide_eq_true_eq]; omega)]
      have hv : (192 + c / 64 - 192) * 64 + (128 + c % 64 - 128) = c := by omega
      rw [hv]
    · by_cases h3 : c < 65536
      · have e1 : utf8EncodeChar c = [224 + c / 4096, 128 + (c / 64) % 64, 128 + c % 64] := by
          simp [utf8EncodeChar, if_neg h1, if_neg h2, if_pos h3]
        rw [e1]
        show utf8DecodeChar
            ((224 + c / 4096) :: (128 + (c / 64) % 64) :: (128 + c % 64) :: rest) = _
        simp only [utf8DecodeChar]
        rw [if_neg (by omega)]
        rw [if_neg (by
          simp only [Bool.and_eq_true, decide_eq_true_eq, not_and, not_le]
          omega)]
        rw [if_pos (by simp only [Bool.and_eq_true, decide_eq_true_eq]; omega)]
        rw [if_pos (by
          simp only [isContByte, Bool.and_eq_true, decide_eq_true_eq]
          omega)]
        have hv : (224 + c / 4096 - 224) * 4096 + (128 + (c / 64) % 64 - 128) * 64 +
            (128 + c % 64 - 128) = c := by omega
        rw [hv]
        rw [if_pos (by
          simp only [isScalarValue, Bool.and_eq_true, decide_eq_true_eq, Bool.not_eq_true',
            Bool.and_eq_false_iff, decide_eq_false_iff_not, not_le]
          omega)]
      · have hle : c < 1114112 := h.1
        have e1 : utf8EncodeChar c =
            [240 + c / 262144, 128 + (c / 4096) % 64, 128 + (c / 64) % 64, 128 + c % 64] := by
          simp [utf8EncodeChar, if_neg h1, if_neg h2, if_neg h3]
        rw [e1]
        show utf8DecodeChar ((240 + c / 262144) :: (128 + (c / 4096) % 64) ::
            (128 + (c / 64) % 64) :: (128 + c % 64) :: rest) = _
        simp only [utf8DecodeChar]
        rw [if_neg (by omega)]
        rw [if_neg (by
          simp only [Bool.and_eq_true, decide_eq_true_eq, not_and, not_le]
          omega)]
        rw [if_neg (by
          simp only [Bool.and_eq_true, decide_eq_true_eq, not_and, not_le]
          omega)]
        rw [if_pos (by simp only [Bool.and_eq_true, decide_eq_true_eq]; omega)]
        rw [if_pos (by
          simp only [isContByte, Bool.and_eq_true, decide_eq_true_eq]
          omega)]
        have hv : (240 + c / 262144 - 240) * 262144 + (128 + (c / 4096) % 64 - 128) * 4096 +
            (128 + (c / 64) % 64 - 128) * 64 + (128 + c % 64 - 128) = c := by omega
        rw [hv]
        rw [if_pos (by simp only [Bool.and_eq_true, decide_eq_true_eq]; omega)]

/-- The UTF-8 encoding of a scalar is never empty. -/
theorem utf8EncodeChar_ne_nil (c : Nat) : utf8EncodeChar c ≠ [] := by
  unfold utf8EncodeChar
  split_ifs <;> simp

/-- A string is no longer than its UTF-8 encoding. -/
theorem utf8Encode_length_ge (s : List Nat) : s.length ≤ (utf8Encode s).length := by
  induction s with
  | nil => simp [utf8Encode]
  | cons c t ih =>
    have := utf8EncodeChar_ne_nil c
    have hpos : 0 < (utf8EncodeChar c).length := List.length_pos.mpr this
    simp only [utf8Encode, List.flatMap_cons, List.length_append, List.length_cons]
    simp only [utf8Encode] at ih
    omega

/-- Decoding the UTF-8 encoding of a whole string succeeds (given
enough fuel, which one unit per input character always is). -/
theorem utf8DecodeAllF_encode (s : List Nat) :
    ∀ fuel, (∀ c ∈ s, isScalarValue c = true) → s.length ≤ fuel →
      utf8DecodeAllF fuel (utf8Encode s) = some s := by
  induction s with
  | nil =>
    intro fuel _ _
    show utf8DecodeAllF fuel [] = some []
    cases fuel <;> rfl
  | cons c t ih =>
    intro fuel hv hlen
    obtain ⟨f, rfl⟩ : ∃ f, fuel = f + 1 := ⟨fuel - 1, by simp at hlen; omega⟩
    have hc := hv c (by simp)
    obtain ⟨b, bs, hbs⟩ : ∃ b bs, utf8EncodeChar c = b :: bs := by
      cases hE : utf8EncodeChar c with
      | nil => exact absurd hE (utf8EncodeChar_ne_nil c)
      | cons b bs => exact ⟨b, bs, rfl⟩
    have hdec : utf8DecodeChar (b :: (bs ++ utf8Encode t)) = some (c, utf8Encode t) := by
      rw [← List.cons_append, ← hbs]
      exact utf8DecodeChar_encodeChar c _ hc
    have hshape : utf8Encode (c :: t) = b :: (bs ++ utf8Encode t) := by
      simp only [utf8Encode, List.flatMap_cons]
      rw [hbs]
      rfl
    rw [hshape]
    show (match utf8DecodeChar (b :: (bs ++ utf8Encode t)) with
      | some (c, rest) => (utf8DecodeAllF f rest).map (fun s => c :: s)
      | none => none) = some (c :: t)
    rw [hdec]
    show (utf8DecodeAllF f (utf8Encode t)).map (fun s => c :: s) = some (c :: t)
    rw [ih f (fun x hx => hv x (by simp [hx])) (by simp at hlen; omega)]
    rfl

/-- `decode_utf8` inverts `encode_utf8` on well-formed strings. -/
theorem decodeUtf8_encode (s : List Nat) (hv : ∀ c ∈ s, isScalarValue c = true) :
    decodeUtf8 (utf8Encode s) = .ok s := by
  unfold decodeUtf8 utf8DecodeAll
  rw [utf8DecodeAllF_encode s (utf8Encode s).length hv (utf8Encode_length_ge s)]

/-- Restriction of table well-formedness to the tail. -/
theorem TableWf.tail {a : Nat × List Nat} {t : List (Nat × List Nat)}
    (h : TableWf (a :: t)) : TableWf t :=
  ⟨fun e he => h.1 e (by simp [he]), (List.pairwise_cons.mp h.2).2⟩

/-- In a well-formed table, the greedy prefix search over the encoding
of an entry followed by anything finds exactly that entry. -/
theorem tableFind_encode_entry :
    ∀ (t : List (Nat × List Nat)), TableWf t → ∀ e ∈ t, ∀ r : List Nat,
      t.find? (fun x => !x.2.isEmpty && x.2.isPrefixOf (e.2 ++ r)) = some e := by
  intro t
  induction t with
  | nil => intro _ e he; cases he
  | cons a t' ih =>
    intro hwf e he r
    have hrel := (List.pairwise_cons.mp hwf.2).1
    rcases List.mem_cons.mp he with rfl | he'
    · apply List.find?_cons_of_pos
      have hne : e.2 ≠ [] := hwf.1 e (by simp)
      simp only [Bool.and_eq_true, Bool.not_eq_true', List.isEmpty_eq_false]
      exact ⟨hne, List.isPrefixOf_iff_prefix.mpr (List.prefix_append e.2 r)⟩
    · rw [List.find?_cons_of_neg]
      · exact ih hwf.tail e he' r
      · intro hpred
        simp only [Bool.and_eq_true, Bool.not_eq_true', List.isEmpty_eq_false,
          List.isPrefixOf_iff_prefix] at hpred
        obtain ⟨hane, hapre⟩ := hpred
        have hepre : e.2 <+: e.2 ++ r := List.prefix_append e.2 r
        obtain ⟨hnab, hnba⟩ := hrel e he'
        rcases Nat.le_total a.2.length e.2.length with hle | hle
        · exact hnab (List.prefix_of_prefix_length_le hapre hepre hle)
        · exact hnba (List.prefix_of_prefix_length_le hepre hapre hle)

/-- Sequences encoded by a well-formed table are at least as long as
the encoded string. -/
theorem tableEncode_length_ge (t : List (Nat × List Nat)) (hwf : TableWf t) :
    ∀ s bs : List Nat, tableEncode t s = some bs → s.length ≤ bs.length := by
  intro s
  induction s with
  | nil =>
    intro bs henc
    simp [tableEncode] at henc
    simp [← henc]
  | cons c s' ih =>
    intro bs henc
    simp only [tableEncode] at henc
    cases hc : tableEncodeChar t c with
    | none => rw [hc] at henc; cases henc
    | some code =>
      rw [hc] at henc
      cases he : tableEncode t s' with
      | none => rw [he] at henc; cases henc
      | some bs' =>
        rw [he] at henc
        have hbs : bs = code ++ bs' := by
          cases henc
          rfl
        obtain ⟨e0, hfind, he0⟩ :
            ∃ e0, t.find? (fun e => e.1 == c) = some e0 ∧ e0.2 = code := by
          simp only [tableEncodeChar] at hc
          cases hf : t.find? (fun e => e.1 == c) with
          | none => rw [hf] at hc; cases hc
          | some e0 =>
            rw [hf] at hc
            exact ⟨e0, rfl, by cases hc; rfl⟩
        have hmem : e0 ∈ t := List.mem_of_find?_eq_some hfind
        have hcode_ne : code ≠ [] := he0 ▸ hwf.1 e0 hmem
        have hlen : 0 < code.length := List.length_pos.mpr hcode_ne
        have := ih bs' he
        subst hbs
        simp only [List.length_cons, List.length_append]
        omega

/-- Greedy table decoding inverts table encoding on well-formed tables
(fuel version: one unit per encoded character suffices). -/
theorem tableDecodeF_encode (t : List (Nat × List Nat)) (hwf : TableWf t) :
    ∀ (s bs : List Nat) (fuel : Nat),
      tableEncode t s = some bs → s.length ≤ fuel → tableDecodeF t fuel bs = some s := by
  intro s
  induction s with
  | nil =>
    intro bs fuel henc _
    simp only [tableEncode] at henc
    cases henc
    cases fuel <;> rfl
  | cons c s' ih =>
    intro bs fuel henc hlen
    simp only [tableEncode] at henc
    cases hc : tableEncodeChar t c with
    | none => rw [hc] at henc; cases henc
    | some code =>
      rw [hc] at henc
      cases he : tableEncode t s' with
      | none => rw [he] at henc; cases henc
      | some bs' =>
        rw [he] at henc
        have hbs : bs = code ++ bs' := by cases henc; rfl
        obtain ⟨e0, hfind, he0⟩ :
            ∃ e0, t.find? (fun e => e.1 == c) = some e0 ∧ e0.2 = code := by
          simp only [tableEncodeChar] at hc
          cases hf : t.find? (fun e => e.1 == c) with
          | none => rw [hf] at hc; cases hc
          | some e0 =>
            rw [hf] at hc
            exact ⟨e0, rfl, by cases hc; rfl⟩
        have hmem : e0 ∈ t := List.mem_of_find?_eq_some hfind
        have he0c : e0.1 = c := by
          have := List.find?_some hfind
          simpa using this
        have hcode_ne : code ≠ [] := he0 ▸ hwf.1 e0 hmem
        obtain ⟨f, rfl⟩ : ∃ f, fuel = f + 1 := ⟨fuel - 1, by simp at hlen; omega⟩
        subst hbs
        obtain ⟨b, bs2, hshape⟩ : ∃ b bs2, code ++ bs' = b :: bs2 := by
          cases hcc : code with
          | nil => exact absurd hcc hcode_ne
          | cons b bs3 => exact ⟨b, bs3 ++ bs', by simp⟩
        rw [hshape]
        show (match (t.find? (fun x => !x.2.isEmpty && x.2.isPrefixOf (b :: bs2))) with
          | some e => (tableDecodeF t f ((b :: bs2).drop e.2.length)).map (fun s => e.1 :: s)
          | none => none) = some (c :: s')
        rw [← hshape, ← he0]
        rw [tableFind_encode_entry t hwf e0 hmem bs']
        show (tableDecodeF t f ((e0.2 ++ bs').drop e0.2.length)).map (fun s => e0.1 :: s) =
          some (c :: s')
        rw [List.drop_left, ih bs' f he (by simp at hlen; omega), he0c]
        rfl

/-- C5: for each of the five charsets, decoding the encoding of a
control-character-free string succeeds and returns exactly the string.
The hypothesis that every element of `s` is a Unicode scalar value is
the invariant of the Rust `String` type the encoders take. -/
theorem c5_charset_round_trip (cs : Charset) (s bs : List Nat)
    (hctl : ∀ c ∈ s, isAsciiControl c = false)
    (hval : ∀ c ∈ s, isScalarValue c = true)
    (henc : encodeWithCharset cs s = .ok bs) :
    decodeWithCharset cs bs = .ok s := by
  cases cs
  · simp only [encodeWithCharset, encodeAscii] at henc
    by_cases h : s.all (fun c => c < 128)
    · rw [if_pos h] at henc
      cases henc
      simp [decodeWithCharset, decodeAscii, h]
    · rw [if_neg h] at henc
      cases henc
  · simp only [encodeWithCharset, encodeSjis] at henc
    cases he : tableEncode sjisTable s with
    | none => rw [he] at henc; cases henc
    | some b =>
      rw [he] at henc
      injection henc with hb
      subst hb
      have hwf : TableWf sjisTable := by decide
      simp only [decodeWithCharset, decodeSjis, tableDecode]
      rw [tableDecodeF_encode sjisTable hwf s b b.length he
        (tableEncode_length_ge sjisTable hwf s b he)]
  · simp only [encodeWithCharset, encodeIso2022Jp] at henc
    cases he : tableEncode iso2022JpTable s with
    | none => rw [he] at henc; cases henc
    | some b =>
      rw [he] at henc
      injection henc with hb
      subst hb
      have hwf : TableWf iso2022JpTable := by decide
      simp only [decodeWithCharset, decodeIso2022Jp, tableDecode]
      rw [tableDecodeF_encode iso2022JpTable hwf s b b.length he
        (tableEncode_length_ge iso2022JpTable hwf s b he)]
  · simp only [encodeWithCharset, encodeEucJp] at henc
    cases he : tableEncode eucJpTable s with
    | none => rw [he] at henc; cases henc
    | some b =>
      rw [he] at henc
      injection henc with hb
      subst hb
      have hwf : TableWf eucJpTable := by decide
      simp only [decodeWithCharset, decodeEucJp, tableDecode]
      rw [tableDecodeF_encode eucJpTable hwf s b b.length he
        (tableEncode_length_ge eucJpTable hwf s b he)]
  · simp only [encodeWithCharset, encodeUtf8] at henc
    cases henc
    simp only [decodeWithCharset]
    exact decodeUtf8_encode s hval

/-- Witness for C5: the string さくら round-trips through Shift_JIS,
and an ASCII string through ASCII. -/
theorem c5_witness :
    decodeWithCharset .shiftJis [130, 179, 130, 173, 130, 231] =
      .ok [0x3055, 0x304F, 0x3089] ∧
    decodeWithCharset .ascii (strScalars "sakura") = .ok (strScalars "sakura") :=
  ⟨c5_charset_round_trip .shiftJis [0x3055, 0x304F, 0x3089] [130, 179, 130, 173, 130, 231]
     (by decide) (by decide) (by decide),
   c5_charset_round_trip .ascii (strScalars "sakura") (strScalars "sakura")
     (by decide) (by decide) (by decide)⟩

/-- `read!` of zero bytes. -/
theorem readN_zero (l : List Nat) : readN 0 l = some ([], l) := by
  simp [readN]

/-- `read!` peels one byte off a cons cell; with `readN_zero` this lets
`simp` evaluate any fixed-size read against a concrete prefix. -/
theorem readN_succ_cons (n : Nat) (x : Nat) (xs : List Nat) :
    readN (n + 1) (x :: xs) = (readN n xs).map (fun p => (x :: p.1, p.2)) := by
  unfold readN
  by_cases h : n ≤ xs.length
  · rw [if_pos h, if_pos (by simp; omega)]
    simp
  · rw [if_neg h, if_neg (by simp; omega)]
    rfl

/-- Does a byte string contain the CR LF pair (at adjacent positions)? -/
def hasCrLf : List Nat → Bool
  | [] => false
  | [_] => false
  | a :: b :: t => (a == 13 && b == 10) || hasCrLf (b :: t)

/-- The serializability condition on a raw header value: no CR LF pair
inside (it would end the header line early) and no leading space (the
parser's `skip_spaces` after the colon would strip it). -/
def sstpValueWfB (v : List Nat) : Bool :=
  !hasCrLf v && !(v.head? == some 32)

/-- The serializability condition on a header name: an `Other` name must
be a pure token string not spelled like a well-known name (which is
exactly what `from_static`/`from_bytes` can construct); well-known names
are always fine. -/
def sstpNameWfB : SstpHeaderName → Bool
  | .other s => s.all isTokenByte && !decide (s ∈ sstpSpellings)
  | _ => true

/-- `read_until!(b":")` stops at the first colon. -/
theorem readUntil1_append (L : List Nat) (h : ∀ x ∈ L, x ≠ 58) (rest : List Nat) :
    readUntil1 58 (L ++ 58 :: rest) = some (L, rest) := by
  induction L with
  | nil => simp [readUntil1]
  | cons x t ih =>
    have hx : x ≠ 58 := h x (by simp)
    have ht : ∀ y ∈ t, y ≠ 58 := fun y hy => h y (by simp [hy])
    simp [readUntil1, hx, ih ht]

/-- `read_until!(b"\r\n")` stops at the first CR LF pair - in
particular at the appended terminator when the body contains none
(a trailing CR in the body cannot pair with the terminator's CR). -/
theorem readUntilCRLF_append (v : List Nat) (h : hasCrLf v = false) (rest : List Nat) :
    readUntilCRLF (v ++ 13 :: 10 :: rest) = some (v, rest) := by
  induction v with
  | nil => simp [readUntilCRLF]
  | cons c t ih =>
    cases t with
    | nil =>
      simp [readUntilCRLF]
    | cons d t' =>
      simp only [hasCrLf, Bool.or_eq_false_iff] at h
      simp only [List.cons_append]
      rw [show readUntilCRLF (c :: d :: (t' ++ 13 :: 10 :: rest)) =
        (if c == 13 && d == 10 then some ([], t' ++ 13 :: 10 :: rest)
         else (readUntilCRLF (d :: (t' ++ 13 :: 10 :: rest))).map
           (fun p => (c :: p.1, p.2))) from rfl]
      rw [h.1]
      rw [show d :: (t' ++ 13 :: 10 :: rest) = (d :: t') ++ 13 :: 10 :: rest from rfl]
      rw [ih h.2]
      rfl

/-- Lossy UTF-8 decoding is the identity on ASCII byte strings (fuel
version). -/
theorem utf8DecodeLossyF_ascii (l : List Nat) :
    ∀ fuel, (∀ b ∈ l, b < 128) → l.length ≤ fuel → utf8DecodeLossyF fuel l = l := by
  induction l with
  | nil => intro fuel _ _; cases fuel <;> rfl
  | cons b t ih =>
    intro fuel h hlen
    obtain ⟨f, rfl⟩ : ∃ f, fuel = f + 1 := ⟨fuel - 1, by simp at hlen; omega⟩
    have hb : b < 128 := h b (by simp)
    have hdec : utf8DecodeChar (b :: t) = some (b, t) := by
      simp [utf8DecodeChar, hb]
    show (match utf8DecodeChar (b :: t) with
      | some (c, r2) => c :: utf8DecodeLossyF f r2
      | none => 65533 :: utf8DecodeLossyF f t) = b :: t
    rw [hdec]
    show b :: utf8DecodeLossyF f t = b :: t
    rw [ih f (fun x hx => h x (by simp [hx])) (by simp at hlen; omega)]

/-- Lossy UTF-8 decoding is the identity on ASCII byte strings. -/
theorem utf8DecodeLossy_ascii (l : List Nat) (h : ∀ b ∈ l, b < 128) :
    utf8DecodeLossy l = l :=
  utf8DecodeLossyF_ascii l l.length h (Nat.le_refl _)

/-- A serializable header name round-trips through serialization and
`from_bytes`. -/
theorem sstpName_roundtrip (n : SstpHeaderName) (h : sstpNameWfB n = true) :
    sstpHeaderNameFromBytes (sstpHeaderNameBytes n) = .ok n := by
  cases n
  case other s =>
    simp only [sstpNameWfB, Bool.and_eq_true, Bool.not_eq_true'] at h
    obtain ⟨htok, hnotsp⟩ := h
    have hlt : ∀ b ∈ s, b < 128 := fun b hb =>
      isTokenByte_lt128 (List.all_eq_true.mp htok b hb)
    have hnsp : s ∉ sstpSpellings := of_decide_eq_false hnotsp
    rw [show sstpHeaderNameBytes (SstpHeaderName.other s) = utf8Encode s from rfl,
      utf8Encode_of_lt128 s hlt]
    unfold sstpHeaderNameFromBytes
    rw [utf8DecodeLossy_ascii s hlt, (sstpFromStatic_not_spelling s hnsp).1,
      utf8Encode_of_lt128 s hlt]
    unfold rfc7230FromUtf8
    rw [List.find?_eq_none.mpr (fun x hx => by
      simp [List.all_eq_true.mp htok x hx])]
    rfl
  all_goals decide

/-- Serializable header names are pure token strings. -/
theorem sstpNameBytes_all_token (n : SstpHeaderName) (h : sstpNameWfB n = true) :
    (sstpHeaderNameBytes n).all isTokenByte = true := by
  cases n
  case other s =>
    simp only [sstpNameWfB, Bool.and_eq_true] at h
    have hlt : ∀ b ∈ s, b < 128 := fun b hb =>
      isTokenByte_lt128 (List.all_eq_true.mp h.1 b hb)
    rw [show sstpHeaderNameBytes (SstpHeaderName.other s) = utf8Encode s from rfl,
      utf8Encode_of_lt128 s hlt]
    exact h.1
  all_goals decide

/-- `skip_spaces` consumes one leading space and stops at the first
non-space byte. -/
theorem skipSpaces_single (l : List Nat) (h : l.head? ≠ some 32) :
    skipSpaces (32 :: l) = l := by
  cases l with
  | nil => rfl
  | cons c t =>
    have hc : c ≠ 32 := fun hcc => h (by simp [hcc])
    simp [skipSpaces, hc]

/-- The first two bytes of a serialized header line are never a CR LF
pair (the name part is token bytes or the line starts with the colon). -/
theorem lookahead2_headerline (L : List Nat) (hL : L.all isTokenByte = true) (z : List Nat) :
    ∃ p : Nat × Nat, lookahead2 (L ++ 58 :: 32 :: z) = some p ∧
      (p.1 == 13 && p.2 == 10) = false := by
  cases L with
  | nil => exact ⟨(58, 32), rfl, by decide⟩
  | cons x t =>
    have hx : isTokenByte x = true := List.all_eq_true.mp hL x (by simp)
    have hx13 : x ≠ 13 := by
      intro hxe
      subst hxe
      simp [isTokenByte] at hx
    cases t with
    | nil =>
      refine ⟨(x, 58), rfl, ?_⟩
      simp [hx13]
    | cons y t' =>
      refine ⟨(x, y), rfl, ?_⟩
      simp [hx13]

/-- The first two bytes of a serialized additional-data line are never a
CR LF pair. -/
theorem lookahead2_addline (ln : List Nat) (hne : ln ≠ []) (hcr : hasCrLf ln = false)
    (z : List Nat) :
    ∃ p : Nat × Nat, lookahead2 (ln ++ 13 :: 10 :: z) = some p ∧
      (p.1 == 13 && p.2 == 10) = false := by
  cases ln with
  | nil => exact absurd rfl hne
  | cons c t =>
    cases t with
    | nil =>
      refine ⟨(c, 13), rfl, by simp⟩
    | cons d t' =>
      refine ⟨(c, d), rfl, ?_⟩
      simp only [hasCrLf, Bool.or_eq_false_iff] at hcr
      exact hcr.1

/-- Parsing the serialization of a header list consumes exactly the
header lines, inserts every (name, value) pair in order, and leaves the
blank-line terminator unconsumed. -/
theorem sstpParseHeadersF_rt :
    ∀ (hs : List (SstpHeaderName × List Nat)) (acc : SstpHeaderMap) (rest : List Nat)
      (fuel : Nat),
      (∀ e ∈ hs, sstpNameWfB e.1 = true ∧ sstpValueWfB e.2 = true) →
      hs.length < fuel →
      sstpParseHeadersF fuel acc (hs.flatMap sstpHeaderLineBytes ++ (13 :: 10 :: rest)) =
        .ok (hs.foldl (fun m e => m.insert e.1 e.2) acc, 13 :: 10 :: rest) := by
  intro hs
  induction hs with
  | nil =>
    intro acc rest fuel _ hfuel
    obtain ⟨f, rfl⟩ : ∃ f, fuel = f + 1 := ⟨fuel - 1, by omega⟩
    simp [sstpParseHeadersF, lookahead2]
  | cons e t ih =>
    intro acc rest fuel hwf hfuel
    obtain ⟨f, rfl⟩ : ∃ f, fuel = f + 1 := ⟨fuel - 1, by omega⟩
    obtain ⟨hn, hv⟩ := hwf e (by simp)
    simp only [sstpValueWfB, Bool.and_eq_true, Bool.not_eq_true'] at hv
    obtain ⟨hvcr, hvsp⟩ := hv
    have htok : (sstpHeaderNameBytes e.1).all isTokenByte = true := sstpNameBytes_all_token e.1 hn
    have hshape : (e :: t).flatMap sstpHeaderLineBytes ++ (13 :: 10 :: rest) =
        sstpHeaderNameBytes e.1 ++ 58 :: 32 ::
          (e.2 ++ 13 :: 10 :: (t.flatMap sstpHeaderLineBytes ++ (13 :: 10 :: rest))) := by
      simp [sstpHeaderLineBytes, List.flatMap_cons, List.append_assoc]
    rw [hshape]
    obtain ⟨p, hp, hpne⟩ := lookahead2_headerline (sstpHeaderNameBytes e.1) htok
      (e.2 ++ 13 :: 10 :: (t.flatMap sstpHeaderLineBytes ++ (13 :: 10 :: rest)))
    have hcolon : ∀ x ∈ sstpHeaderNameBytes e.1, x ≠ 58 := by
      intro x hx hx58
      have := List.all_eq_true.mp htok x hx
      subst hx58
      simp [isTokenByte] at this
    have hread1 : readUntil1 58 (sstpHeaderNameBytes e.1 ++ 58 :: 32 ::
        (e.2 ++ 13 :: 10 :: (t.flatMap sstpHeaderLineBytes ++ (13 :: 10 :: rest)))) =
        some (sstpHeaderNameBytes e.1,
          32 :: (e.2 ++ 13 :: 10 :: (t.flatMap sstpHeaderLineBytes ++ (13 :: 10 :: rest)))) :=
      readUntil1_append _ hcolon _
    have hskip : skipSpaces (32 :: (e.2 ++ 13 :: 10 ::
        (t.flatMap sstpHeaderLineBytes ++ (13 :: 10 :: rest)))) =
        e.2 ++ 13 :: 10 :: (t.flatMap sstpHeaderLineBytes ++ (13 :: 10 :: rest)) := by
      apply skipSpaces_single
      cases hv2 : e.2 with
      | nil => simp
      | cons c t2 =>
        rw [hv2] at hvsp
        simp only [List.head?_cons] at hvsp ⊢
        simp only [List.cons_append, List.head?_cons]
        intro hc
        rw [← hc] at hvsp
        simp at hvsp
    have hread2 : readUntilCRLF (e.2 ++ 13 :: 10 ::
        (t.flatMap sstpHeaderLineBytes ++ (13 :: 10 :: rest))) =
        some (e.2, t.flatMap sstpHeaderLineBytes ++ (13 :: 10 :: rest)) :=
      readUntilCRLF_append e.2 hvcr _
    have hname : sstpHeaderNameFromBytes (sstpHeaderNameBytes e.1) = .ok e.1 :=
      sstpName_roundtrip e.1 hn
    simp only [sstpParseHeadersF, hp, hpne, hread1, hskip, hread2, hname, Bool.false_eq_true,
      if_false]
    rw [ih (acc.insert e.1 e.2) rest f (fun x hx => hwf x (by simp [hx])) (by simp at hfuel; omega)]
    rfl

/-- `parse_method` inverts the method spelling for any tail. -/
theorem sstpParseMethod_rt (m : SstpMethod) (rest : List Nat) :
    sstpParseMethod (sstpMethodBytes m ++ rest) = .ok (m, rest) := by
  cases m <;>
    simp [sstpParseMethod, sstpMethodBytes, readExpect, readN_succ_cons, readN_zero, strScalars]

/-- `parse_version` inverts the version spelling for any tail. -/
theorem sstpParseVersion_rt (v : SstpVersion) (rest : List Nat) :
    sstpParseVersion (sstpVersionBytes v ++ rest) = .ok (v, rest) := by
  cases v <;>
    simp [sstpParseVersion, sstpVersionBytes, readN_succ_cons, readN_zero, strScalars]

/-- `parse_status_code` inverts the status-line spelling for any tail. -/
theorem sstpParseStatusCode_rt (st : SstpStatusCode) (rest : List Nat) :
    sstpParseStatusCode (sstpStatusBytes st ++ rest) = .ok (st, rest) := by
  cases st <;>
    simp [sstpParseStatusCode, sstpStatusBytes, readExpect, readN_succ_cons, readN_zero, strScalars]

/-- `skip_newline` consumes exactly one CR LF. -/
theorem skipNewline_cons (z : List Nat) : skipNewline (13 :: 10 :: z) = some z := by
  simp [skipNewline, readExpect, readN_succ_cons, readN_zero]

/-- Every version spelling starts with a non-space byte. -/
theorem sstpVersionBytes_head (v : SstpVersion) (z : List Nat) :
    (sstpVersionBytes v ++ z).head? ≠ some 32 := by
  cases v <;> simp [sstpVersionBytes, strScalars]

/-- Every status-line spelling starts with a non-space byte. -/
theorem sstpStatusBytes_head (st : SstpStatusCode) (z : List Nat) :
    (sstpStatusBytes st ++ z).head? ≠ some 32 := by
  cases st <;> simp [sstpStatusBytes, strScalars]

/-- A serialized header line takes at least one byte per header, so the
default fuel covers the loop. -/
theorem headerLines_length_ge (hs : List (SstpHeaderName × List Nat)) :
    hs.length ≤ (hs.flatMap sstpHeaderLineBytes).length := by
  induction hs with
  | nil => simp
  | cons e t ih =>
    have h1 : 4 ≤ (sstpHeaderLineBytes e).length := by
      simp [sstpHeaderLineBytes]
      omega
    simp only [List.flatMap_cons, List.length_append, List.length_cons]
    omega

/-- A serialized additional-data line takes at least one byte per line. -/
theorem addLines_length_ge (lines : List (List Nat)) :
    lines.length ≤ (lines.flatMap (fun ln => ln ++ [13, 10])).length := by
  induction lines with
  | nil => simp
  | cons ln t ih =>
    simp only [List.flatMap_cons, List.length_append, List.length_cons]
    omega

/-- `parse_headers` on a serialized header block stops at the blank line
and rebuilds exactly the original `OrderedBag`. -/
theorem sstpParseHeaders_rt (hs : List (SstpHeaderName × List Nat)) (rest : List Nat)
    (hwf : ∀ e ∈ hs, sstpNameWfB e.1 = true ∧ sstpValueWfB e.2 = true) :
    sstpParseHeaders (hs.flatMap sstpHeaderLineBytes ++ (13 :: 10 :: rest)) =
      .ok (OrderedBag.ofList hs, 13 :: 10 :: rest) := by
  have h := sstpParseHeadersF_rt hs OrderedBag.empty rest
    ((hs.flatMap sstpHeaderLineBytes ++ (13 :: 10 :: rest)).length + 1) hwf
    (by
      have := headerLines_length_ge hs
      simp only [List.length_append, List.length_cons]
      omega)
  simpa [sstpParseHeaders, OrderedBag.ofList] using h

/-- The `parse_additional_data` loop on a serialized block of lines
collects exactly the lines (with their CR LF terminators) and stops at
the blank line. -/
theorem sstpParseAdditionalF_rt :
    ∀ (lines : List (List Nat)) (acc rest : List Nat) (fuel : Nat),
      (∀ ln ∈ lines, ln ≠ [] ∧ hasCrLf ln = false) →
      lines.length < fuel →
      sstpParseAdditionalF fuel acc
          (lines.flatMap (fun ln => ln ++ [13, 10]) ++ (13 :: 10 :: rest)) =
        .ok (acc ++ lines.flatMap (fun ln => ln ++ [13, 10]), 13 :: 10 :: rest) := by
  intro lines
  induction lines with
  | nil =>
    intro acc rest fuel _ hfuel
    obtain ⟨f, rfl⟩ : ∃ f, fuel = f + 1 := ⟨fuel - 1, by omega⟩
    simp [sstpParseAdditionalF, lookahead2]
  | cons ln t ih =>
    intro acc rest fuel hwf hfuel
    obtain ⟨f, rfl⟩ : ∃ f, fuel = f + 1 := ⟨fuel - 1, by omega⟩
    obtain ⟨hne, hcr⟩ := hwf ln (by simp)
    have hshape : (ln :: t).flatMap (fun l => l ++ [13, 10]) ++ (13 :: 10 :: rest) =
        ln ++ 13 :: 10 :: (t.flatMap (fun l => l ++ [13, 10]) ++ (13 :: 10 :: rest)) := by
      simp [List.flatMap_cons, List.append_assoc]
    rw [hshape]
    obtain ⟨p, hp, hpne⟩ := lookahead2_addline ln hne hcr
      (t.flatMap (fun l => l ++ [13, 10]) ++ (13 :: 10 :: rest))
    have hread : readUntilCRLF (ln ++ 13 :: 10 ::
        (t.flatMap (fun l => l ++ [13, 10]) ++ (13 :: 10 :: rest))) =
        some (ln, t.flatMap (fun l => l ++ [13, 10]) ++ (13 :: 10 :: rest)) :=
      readUntilCRLF_append ln hcr _
    simp only [sstpParseAdditionalF, hp, hpne, hread, Bool.false_eq_true, if_false]
    rw [ih (acc ++ ln ++ [13, 10]) rest f (fun x hx => hwf x (by simp [hx]))
      (by simp at hfuel; omega)]
    simp [List.flatMap_cons, List.append_assoc]

/-- `parse_additional_data` on a serialized non-trailer block followed by
the final CR LF yields `Text` of exactly the serialized bytes. -/
theorem sstpParseAdditional_rt (lines : List (List Nat))
    (hwf : ∀ ln ∈ lines, ln ≠ [] ∧ hasCrLf ln = false) :
    sstpParseAdditional (lines.flatMap (fun ln => ln ++ [13, 10]) ++ [13, 10]) =
      .ok (.text (lines.flatMap (fun ln => ln ++ [13, 10])), [13, 10]) := by
  have hne : lines.flatMap (fun ln => ln ++ [13, 10]) ++ [13, 10] ≠ [] := by
    simp
  have h := sstpParseAdditionalF_rt lines [] []
    ((lines.flatMap (fun ln => ln ++ [13, 10]) ++ [13, 10]).length + 1) hwf
    (by
      have := addLines_length_ge lines
      simp only [List.length_append, List.length_cons, List.length_nil]
      omega)
  rw [sstpParseAdditional, if_neg hne, h]
  simp [Except.map]

/-- Iterating a bag built from a list of entries yields that list. -/
theorem iterEntries_ofList {K V : Type} [DecidableEq K] (hs : List (K × V)) :
    (OrderedBag.ofList hs).iterEntries = hs := by
  simpa [OrderedBag.iterEntries, OrderedBag.ofList, OrderedBag.empty] using
    obEntries_foldl hs OrderedBag.empty

/-- Full SSTP request round trip: parsing `as_bytes` of a request whose
headers are serializable (token names not spelling a well-known name when
`Other`, values with no CR LF and no leading space) and whose stored
charset agrees with its `Charset` header yields the request back. -/
theorem sstpRequest_roundTrip (m : SstpMethod) (v : SstpVersion)
    (hs : List (SstpHeaderName × List Nat)) (cs : Charset)
    (hwf : ∀ e ∈ hs, sstpNameWfB e.1 = true ∧ sstpValueWfB e.2 = true)
    (hcs : sstpResolveCharset (OrderedBag.ofList hs) = .ok cs) :
    sstpParseRequest (sstpRequestAsBytes ⟨m, v, OrderedBag.ofList hs, cs⟩) =
      .ok ⟨m, v, OrderedBag.ofList hs, cs⟩ := by
  have hshape : sstpRequestAsBytes ⟨m, v, OrderedBag.ofList hs, cs⟩ =
      sstpMethodBytes m ++ 32 :: (sstpVersionBytes v ++ 13 :: 10 ::
        (hs.flatMap sstpHeaderLineBytes ++ (13 :: 10 :: []))) := by
    simp [sstpRequestAsBytes, iterEntries_ofList]
  rw [hshape]
  have h1 := sstpParseMethod_rt m (32 :: (sstpVersionBytes v ++ 13 :: 10 ::
    (hs.flatMap sstpHeaderLineBytes ++ (13 :: 10 :: []))))
  have h2 : skipSpaces (32 :: (sstpVersionBytes v ++ 13 :: 10 ::
      (hs.flatMap sstpHeaderLineBytes ++ (13 :: 10 :: [])))) =
      sstpVersionBytes v ++ 13 :: 10 :: (hs.flatMap sstpHeaderLineBytes ++ (13 :: 10 :: [])) :=
    skipSpaces_single _ (sstpVersionBytes_head v _)
  have h3 := sstpParseVersion_rt v
    (13 :: 10 :: (hs.flatMap sstpHeaderLineBytes ++ (13 :: 10 :: [])))
  have h4 := skipNewline_cons (hs.flatMap sstpHeaderLineBytes ++ (13 :: 10 :: []))
  have h5 := sstpParseHeaders_rt hs [] hwf
  have h7 := skipNewline_cons ([] : List Nat)
  simp only [sstpParseRequest, h1, h2, h3, h4, h5, hcs, h7]
  simp

/-- Full SSTP response round trip: same conditions as the request, plus
the additional data is either `Empty` or `Text` of a serialized block of
non-empty CR-LF-free lines. -/
theorem sstpResponse_roundTrip (v : SstpVersion) (st : SstpStatusCode)
    (hs : List (SstpHeaderName × List Nat)) (cs : Charset) (ad : AdditionalData)
    (hwf : ∀ e ∈ hs, sstpNameWfB e.1 = true ∧ sstpValueWfB e.2 = true)
    (hcs : sstpResolveCharset (OrderedBag.ofList hs) = .ok cs)
    (had : ad = .empty ∨ ∃ lines : List (List Nat),
      (∀ ln ∈ lines, ln ≠ [] ∧ hasCrLf ln = false) ∧
      ad = .text (lines.flatMap (fun ln => ln ++ [13, 10]))) :
    sstpParseResponse (sstpResponseAsBytes ⟨v, st, OrderedBag.ofList hs, cs, ad⟩) =
      .ok ⟨v, st, OrderedBag.ofList hs, cs, ad⟩ := by
  have h2 : ∀ z : List Nat, skipSpaces (32 :: (sstpStatusBytes st ++ z)) =
      sstpStatusBytes st ++ z :=
    fun z => skipSpaces_single _ (sstpStatusBytes_head st z)
  rcases had with rfl | ⟨lines, hlwf, rfl⟩
  · have hshape : sstpResponseAsBytes ⟨v, st, OrderedBag.ofList hs, cs, .empty⟩ =
        sstpVersionBytes v ++ 32 :: (sstpStatusBytes st ++ 13 :: 10 ::
          (hs.flatMap sstpHeaderLineBytes ++ (13 :: 10 :: []))) := by
      simp [sstpResponseAsBytes, iterEntries_ofList]
    rw [hshape]
    have h1 := sstpParseVersion_rt v (32 :: (sstpStatusBytes st ++ 13 :: 10 ::
      (hs.flatMap sstpHeaderLineBytes ++ (13 :: 10 :: []))))
    have h3 := sstpParseStatusCode_rt st
      (13 :: 10 :: (hs.flatMap sstpHeaderLineBytes ++ (13 :: 10 :: [])))
    have h4 := skipNewline_cons (hs.flatMap sstpHeaderLineBytes ++ (13 :: 10 :: []))
    have h5 := sstpParseHeaders_rt hs [] hwf
    have h7 := skipNewline_cons ([] : List Nat)
    have h8 : sstpParseAdditional [] = .ok (.empty, []) := by
      simp [sstpParseAdditional]
    simp only [sstpParseResponse, h1, h2, h3, h4, h5, hcs, h7, h8]
    simp
  · have hshape : sstpResponseAsBytes
        ⟨v, st, OrderedBag.ofList hs, cs, .text (lines.flatMap (fun ln => ln ++ [13, 10]))⟩ =
        sstpVersionBytes v ++ 32 :: (sstpStatusBytes st ++ 13 :: 10 ::
          (hs.flatMap sstpHeaderLineBytes ++ (13 :: 10 ::
            (lines.flatMap (fun ln => ln ++ [13, 10]) ++ [13, 10])))) := by
      simp [sstpResponseAsBytes, iterEntries_ofList, List.append_assoc]
    rw [hshape]
    have h1 := sstpParseVersion_rt v (32 :: (sstpStatusBytes st ++ 13 :: 10 ::
      (hs.flatMap sstpHeaderLineBytes ++ (13 :: 10 ::
        (lines.flatMap (fun ln => ln ++ [13, 10]) ++ [13, 10])))))
    have h3 := sstpParseStatusCode_rt st
      (13 :: 10 :: (hs.flatMap sstpHeaderLineBytes ++ (13 :: 10 ::
        (lines.flatMap (fun ln => ln ++ [13, 10]) ++ [13, 10]))))
    have h4 := skipNewline_cons (hs.flatMap sstpHeaderLineBytes ++ (13 :: 10 ::
      (lines.flatMap (fun ln => ln ++ [13, 10]) ++ [13, 10])))
    have h5 := sstpParseHeaders_rt hs
      (lines.flatMap (fun ln => ln ++ [13, 10]) ++ [13, 10]) hwf
    have h6 := skipNewline_cons (lines.flatMap (fun ln => ln ++ [13, 10]) ++ [13, 10])
    have h8 := sstpParseAdditional_rt lines hlwf
    have h9 := skipNewline_cons ([] : List Nat)
    simp only [sstpParseResponse, h1, h2, h3, h4, h5, hcs, h6, h8, h9]
    simp

/-- C1 counterexample: a request constructible through the builder whose
serialization does not re-parse to itself.  The builder accepts the
header value `" foo"` (a space is not a control character), `as_bytes`
writes it verbatim after `": "`, and the parser's `skip_spaces` after
the colon then swallows the leading space, so the re-parsed value is
`"foo"`. -/
theorem c1_counterexample_leading_space_value :
    ∃ r : SstpRequest,
      sstpBuild (sstpBuilderCharset .ascii (sstpBuilderHeader (strScalars "Sender")
          (strScalars " foo") (sstpBuilderVersion .sstp11
            (sstpBuilderMethod .notify sstpRequestPartsDefault)))) = .ok r ∧
      sstpParseRequest (sstpRequestAsBytes r) ≠ .ok r := by
  refine ⟨⟨.notify, .sstp11,
    OrderedBag.ofList [(.sender, strScalars " foo"), (.charset, strScalars "ASCII")],
    .ascii⟩, ?_, ?_⟩
  · rfl
  · intro h
    have h2 := congrArg
      (fun x : Except SstpError SstpRequest =>
        match x with
        | .ok rr => rr.headers.iterEntries
        | .error _ => []) h
    revert h2
    decide

/-- C1 (amended): parsing `as_bytes` of an SSTP request or response is
the identity whenever the value is serializable: every header name is a
token (an `Other` name not spelling a well-known name), every header
value contains no CR LF pair and no leading space, the stored charset
agrees with the map's `Charset` header, and (for responses) the
additional data is `Empty` or `Text` of complete CR-LF-terminated
non-empty lines.  Without the no-leading-space condition the round trip
fails, so the spec's unconditional claim over all builder-constructible
values is too strong. -/
theorem c1_amended_sstp_round_trip :
    (∀ (m : SstpMethod) (v : SstpVersion) (hs : List (SstpHeaderName × List Nat))
        (cs : Charset),
      (∀ e ∈ hs, sstpNameWfB e.1 = true ∧ sstpValueWfB e.2 = true) →
      sstpResolveCharset (OrderedBag.ofList hs) = .ok cs →
      sstpParseRequest (sstpRequestAsBytes ⟨m, v, OrderedBag.ofList hs, cs⟩) =
        .ok ⟨m, v, OrderedBag.ofList hs, cs⟩) ∧
    (∀ (v : SstpVersion) (st : SstpStatusCode) (hs : List (SstpHeaderName × List Nat))
        (cs : Charset) (ad : AdditionalData),
      (∀ e ∈ hs, sstpNameWfB e.1 = true ∧ sstpValueWfB e.2 = true) →
      sstpResolveCharset (OrderedBag.ofList hs) = .ok cs →
      (ad = .empty ∨ ∃ lines : List (List Nat),
        (∀ ln ∈ lines, ln ≠ [] ∧ hasCrLf ln = false) ∧
        ad = .text (lines.flatMap (fun ln => ln ++ [13, 10]))) →
      sstpParseResponse (sstpResponseAsBytes ⟨v, st, OrderedBag.ofList hs, cs, ad⟩) =
        .ok ⟨v, st, OrderedBag.ofList hs, cs, ad⟩) :=
  ⟨fun m v hs cs hwf hcs => sstpRequest_roundTrip m v hs cs hwf hcs,
   fun v st hs cs ad hwf hcs had => sstpResponse_roundTrip v st hs cs ad hwf hcs had⟩

/-- Both branches of the amended round trip hold at a concrete request
and a concrete response with a `Charset: ASCII` header, a `Script`
header and (for the response) one line of additional data. -/
theorem c1_round_trip_witness :
    sstpParseRequest (sstpRequestAsBytes ⟨.notify, .sstp11,
        OrderedBag.ofList [(.charset, strScalars "ASCII"), (.script, strScalars "hello")],
        .ascii⟩) =
      .ok ⟨.notify, .sstp11,
        OrderedBag.ofList [(.charset, strScalars "ASCII"), (.script, strScalars "hello")],
        .ascii⟩ ∧
    sstpParseResponse (sstpResponseAsBytes ⟨.sstp11, .ok,
        OrderedBag.ofList [(.charset, strScalars "ASCII")], .ascii,
        .text (strScalars "line" ++ [13, 10])⟩) =
      .ok ⟨.sstp11, .ok, OrderedBag.ofList [(.charset, strScalars "ASCII")], .ascii,
        .text (strScalars "line" ++ [13, 10])⟩ :=
  ⟨c1_amended_sstp_round_trip.1 .notify .sstp11
      [(.charset, strScalars "ASCII"), (.script, strScalars "hello")] .ascii
      (by decide) (by rfl),
   c1_amended_sstp_round_trip.2 .sstp11 .ok [(.charset, strScalars "ASCII")] .ascii
      (.text (strScalars "line" ++ [13, 10]))
      (by decide) (by rfl)
      (Or.inr ⟨[strScalars "line"], by decide, by decide⟩)⟩
